import Mathlib

/-!
Wumpus World agent (`wumpus.cpp`): embedding and verified properties.

The C++ program keeps the hidden world in `struct World` and the agent's belief
state in `struct Agent`.  Both are embedded here as Lean structures; two-dimensional
C arrays become total functions on integer index pairs, so that a read at an index
the program never wrote returns whatever the surrounding memory held.  Member
functions become functions from the old object to the new one.  `double` values
of the form `1.0 / count` are modelled as exact rationals.  `rand()` becomes an
explicit natural-number argument, and the uninitialised contents of the stack array
`safeMoves` become an explicit argument `junk`.  Console output is kept as the list of
the strings written, and the world file is given to the loader as its list of lines.

The scan of the unknown branch of `chooseNextMove` indexes `knowledge` through
`safeMoves`, which is not written in that branch.  `Agent.scan`, `Agent.chooseNextMove`
and `Agent.makeMove` give the value of the call when every such read lands on some
cell; `Agent.scanChecked`, `Agent.chooseNextMoveChecked` and `Agent.makeMoveChecked`
return `none` when a read indexes outside the array `knowledge[SIZE+1][SIZE+1]`, where
the behaviour of the program is undefined and it may abort.
-/

namespace Wumpus

/-- Grid side length, `const int SIZE = 4`. -/
def SIZE : Int := 4

/-- A two-dimensional array indexed by a pair of `int`s. -/
abbrev Grid (α : Type) : Type := Int → Int → α

/-- Assignment `g[i][j] = v`. -/
def Grid.set {α : Type} (g : Grid α) (i j : Int) (v : α) : Grid α :=
  fun a b => if a = i ∧ b = j then v else g a b

/-- In-place change of the element `g[i][j]`. -/
def Grid.modify {α : Type} (g : Grid α) (i j : Int) (f : α → α) : Grid α :=
  fun a b => if a = i ∧ b = j then f (g a b) else g a b

/-- The agent's belief about one location, `struct Cell`. -/
structure Cell where
  safe : Bool
  unknown : Bool
  breeze : Bool
  stench : Bool
  glow : Bool
  p_pit : ℚ
  p_wumpus : ℚ
  p_paradise : ℚ

/-- The hidden environment, `struct World`.  `pitCount` is only ever set to zero and
incremented, so it is a natural number; the arrays `pitX`, `pitY` are functions of
the index. -/
structure World where
  pitCount : Nat
  pitX : Nat → Int
  pitY : Nat → Int
  wumpusX : Int
  wumpusY : Int
  paradiseX : Int
  paradiseY : Int

/-- The three output parameters of `World::percepts`. -/
structure Percept where
  breeze : Bool
  stench : Bool
  glow : Bool
deriving DecidableEq, Repr

/-- Offsets `dx[i], dy[i]` for `i = 0..3`. -/
def dirs : List (Int × Int) := [(1, 0), (-1, 0), (0, 1), (0, -1)]

/-- Member function `World::inBounds`. -/
def World.inBounds (_w : World) (x y : Int) : Bool :=
  decide (x ≥ 1) && decide (x ≤ SIZE) && decide (y ≥ 1) && decide (y ≤ SIZE)

/-- Inner loop of `World::percepts`: `for i < pitCount: if (nx,ny) is pit i then breeze = true`. -/
def World.pitLoop (w : World) (nx ny : Int) (breeze : Bool) : Bool :=
  (List.range w.pitCount).foldl
    (fun b i => if nx = w.pitX i ∧ ny = w.pitY i then true else b) breeze

/-- Body of the outer loop of `World::percepts` for one direction. -/
def World.perceptStep (w : World) (x y : Int) (p : Percept) (d : Int × Int) : Percept :=
  let nx := x + d.1
  let ny := y + d.2
  if w.inBounds nx ny then
    { breeze := w.pitLoop nx ny p.breeze
      stench := if nx = w.wumpusX ∧ ny = w.wumpusY then true else p.stench
      glow := if nx = w.paradiseX ∧ ny = w.paradiseY then true else p.glow }
  else p

/-- Member function `World::percepts`. -/
def World.percepts (w : World) (x y : Int) : Percept :=
  dirs.foldl (w.perceptStep x y) ⟨false, false, false⟩

/-- The agent, `struct Agent`. -/
structure Agent where
  world : World
  knowledge : Grid Cell
  visited : Grid Bool
  safe : Grid Bool
  x : Int
  y : Int

/-- Body of the double loop of `Agent::init` for one `(i, j)`.  The `glow` field is
not assigned by the source. -/
def Agent.initCell (a : Agent) (c : Int × Int) : Agent :=
  { a with
    knowledge := a.knowledge.modify c.1 c.2 (fun k =>
      { k with safe := false, unknown := true, breeze := false, stench := false,
               p_pit := 0, p_wumpus := 0, p_paradise := 0 })
    visited := a.visited.set c.1 c.2 false
    safe := a.safe.set c.1 c.2 false }

/-- The index pairs `(i, j)` with `1 ≤ i, j ≤ SIZE` in the order of the double loop. -/
def allCells : List (Int × Int) :=
  [1, 2, 3, 4].flatMap (fun i => [1, 2, 3, 4].map (fun j => (i, j)))

/-- Member function `Agent::init`, acting on the object `a` as it was before the call. -/
def Agent.init (a : Agent) (w : World) : Agent :=
  let a0 : Agent := { a with world := w, x := 1, y := 1 }
  let a1 := allCells.foldl Agent.initCell a0
  { a1 with
    knowledge := a1.knowledge.modify 1 1 (fun k => { k with safe := true, unknown := false })
    safe := a1.safe.set 1 1 true }

/-- Lines 146-150 of `updateKnowledge`: mark the current cell and record its percepts. -/
def Agent.record (a : Agent) (p : Percept) : Agent :=
  { a with
    visited := a.visited.set a.x a.y true
    knowledge := a.knowledge.modify a.x a.y (fun k =>
      { k with unknown := false, breeze := p.breeze, stench := p.stench, glow := p.glow }) }

/-- Body of the silence loop for one direction. -/
def Agent.silenceStep (a : Agent) (d : Int × Int) : Agent :=
  let nx := a.x + d.1
  let ny := a.y + d.2
  if a.world.inBounds nx ny then
    { a with
      safe := a.safe.set nx ny true
      knowledge := a.knowledge.modify nx ny (fun k => { k with safe := true, unknown := false }) }
  else a

/-- The silence rule, run when neither breeze nor stench is perceived. -/
def Agent.silence (a : Agent) : Agent :=
  dirs.foldl Agent.silenceStep a

/-- The candidate arrays `candx, candy` (as one list, `count` is its length): the
in-bounds neighbours that are neither visited nor in the safe array. -/
def Agent.candidates (a : Agent) : List (Int × Int) :=
  dirs.foldl (fun cs d =>
    let nx := a.x + d.1
    let ny := a.y + d.2
    if a.world.inBounds nx ny && !a.visited nx ny && !a.safe nx ny then cs ++ [(nx, ny)] else cs) []

/-- The three hazard kinds; each has its own probability field in `Cell` and its own
(textually identical) spread block in `updateKnowledge`. -/
inductive Hazard where
  | pit : Hazard
  | wumpus : Hazard
  | paradise : Hazard
deriving DecidableEq, Repr

/-- Read the field `p_pit`, `p_wumpus` or `p_paradise`. -/
def Cell.prob (k : Cell) : Hazard → ℚ
  | Hazard.pit => k.p_pit
  | Hazard.wumpus => k.p_wumpus
  | Hazard.paradise => k.p_paradise

/-- Assign the field `p_pit`, `p_wumpus` or `p_paradise`. -/
def Cell.setProb (k : Cell) (h : Hazard) (q : ℚ) : Cell :=
  match h with
  | Hazard.pit => { k with p_pit := q }
  | Hazard.wumpus => { k with p_wumpus := q }
  | Hazard.paradise => { k with p_paradise := q }

/-- Body of the inner loop of a spread block:
`if (knowledge[c].p < prob) knowledge[c].p = prob`. -/
def Agent.raise (h : Hazard) (prob : ℚ) (a : Agent) (c : Int × Int) : Agent :=
  if (a.knowledge c.1 c.2).prob h < prob then
    { a with knowledge := a.knowledge.modify c.1 c.2 (fun k => k.setProb h prob) }
  else a

/-- One of the three spread blocks: collect the candidates, and when there are any
raise the field of each one to `1.0 / count`. -/
def Agent.spread (h : Hazard) (a : Agent) : Agent :=
  let cs := a.candidates
  if cs.length > 0 then cs.foldl (Agent.raise h (1 / (cs.length : ℚ))) a else a

/-- Lines 144-166 of `updateKnowledge`: the percepts are read and recorded, then the
silence rule runs when neither breeze nor stench is perceived. -/
def Agent.observe (a : Agent) : Agent :=
  let p := a.world.percepts a.x a.y
  let a1 := a.record p
  if !p.breeze && !p.stench then a1.silence else a1

/-- Member function `Agent::updateKnowledge`. -/
def Agent.updateKnowledge (a : Agent) : Agent :=
  let p := a.world.percepts a.x a.y
  let a2 := a.observe
  let a3 := if p.breeze then a2.spread Hazard.pit else a2
  let a4 := if p.stench then a3.spread Hazard.wumpus else a3
  if p.glow then a4.spread Hazard.paradise else a4

/-- The three move arrays filled by the first loop of `chooseNextMove`, each as the
list of its written entries (the counters are the lengths). -/
structure Moves where
  safeMoves : List (Int × Int)
  unknownMoves : List (Int × Int)
  visitedMoves : List (Int × Int)

/-- Body of the classification loop of `chooseNextMove` for one direction. -/
def Agent.classifyStep (a : Agent) (m : Moves) (d : Int × Int) : Moves :=
  let tx := a.x + d.1
  let ty := a.y + d.2
  if a.world.inBounds tx ty then
    if a.safe tx ty && !a.visited tx ty then { m with safeMoves := m.safeMoves ++ [(tx, ty)] }
    else if (a.knowledge tx ty).unknown then { m with unknownMoves := m.unknownMoves ++ [(tx, ty)] }
    else if a.visited tx ty then { m with visitedMoves := m.visitedMoves ++ [(tx, ty)] }
    else m
  else m

/-- The classification loop of `chooseNextMove`. -/
def Agent.classify (a : Agent) : Moves :=
  dirs.foldl a.classifyStep ⟨[], [], []⟩

/-- Read `arr[i]` of a stack array whose first entries were written (the list) and
whose other entries still hold `junk`. -/
def readArr (written : List (Int × Int)) (junk : Nat → Int × Int) (i : Nat) : Int × Int :=
  written.getD i (junk i)

/-- Combined risk `knowledge[c].p_pit + knowledge[c].p_wumpus`. -/
def Agent.risk (a : Agent) (c : Int × Int) : ℚ :=
  (a.knowledge c.1 c.2).p_pit + (a.knowledge c.1 c.2).p_wumpus

/-- The scan of the unknown branch of `chooseNextMove`: starting from `dir`, for each
`i < unkCount` compare the risks read through `safeMoves[i]` and `safeMoves[dir]`.  This
is the value of the scan when every read lands on a cell; `Agent.scanChecked` tells
whether the reads stay inside the array. -/
def Agent.scan (a : Agent) (m : Moves) (junk : Nat → Int × Int) (dir : Nat) : Nat :=
  (List.range m.unknownMoves.length).foldl
    (fun dir i =>
      if a.risk (readArr m.safeMoves junk i) < a.risk (readArr m.safeMoves junk dir) then i
      else dir) dir

/-- Member function `Agent::chooseNextMove`; `r` is the value of `rand()`, `junk` the
uninitialised contents of `safeMoves`.  Returns `(nx, ny)`, the value of the call when
the reads of the scan land on cells; `Agent.chooseNextMoveChecked` tells whether they
stay inside the array. -/
def Agent.chooseNextMove (a : Agent) (r : Nat) (junk : Nat → Int × Int) : Int × Int :=
  let m := a.classify
  if m.safeMoves.length > 0 then
    readArr m.safeMoves junk (r % m.safeMoves.length)
  else if m.unknownMoves.length > 0 then
    m.unknownMoves.getD (a.scan m junk (r % m.unknownMoves.length)) (a.x, a.y)
  else if m.visitedMoves.length > 0 then
    m.visitedMoves.getD (r % m.visitedMoves.length) (a.x, a.y)
  else (a.x, a.y)

/-- What one call of `makeMove` yields: its return value, the text it wrote to the
console, and the agent afterwards. -/
structure MoveResult where
  finish : Bool
  out : List String
  agent : Agent

/-- Body of the pit loop of `makeMove`; the loop condition includes `!end`. -/
def World.pitCheck (w : World) (x y : Int) (st : Bool × List String) (i : Nat) :
    Bool × List String :=
  if !st.1 then
    if x = w.pitX i ∧ y = w.pitY i then (true, st.2 ++ ["Fell into a pit!\n"]) else st
  else st

/-- The assignments `x = nx; y = ny;` of `makeMove`. -/
def Agent.moveTo (a : Agent) (n : Int × Int) : Agent :=
  { a with x := n.1, y := n.2 }

/-- Member function `Agent::makeMove`; `r` and `junk` are passed on to `chooseNextMove`. -/
def Agent.makeMove (a : Agent) (r : Nat) (junk : Nat → Int × Int) : MoveResult :=
  let n := a.chooseNextMove r junk
  let s0 : Bool × List String :=
    if n.1 = a.x ∧ n.2 = a.y then (true, ["No safe or unknown moves left.\n"]) else (false, [])
  let b : Agent := a.moveTo n
  let s1 : Bool × List String :=
    (s0.1, s0.2 ++ ["Moved to (" ++ toString b.x ++ "," ++ toString b.y ++ ")\n"])
  let s2 := (List.range b.world.pitCount).foldl (b.world.pitCheck b.x b.y) s1
  let s3 : Bool × List String :=
    if b.x = b.world.wumpusX ∧ b.y = b.world.wumpusY then
      (true, s2.2 ++ ["Eaten by the Wumpus!\n"]) else s2
  let s4 : Bool × List String :=
    if b.x = b.world.paradiseX ∧ b.y = b.world.paradiseY then
      (true, s3.2 ++ ["You made it to paradise!\n"]) else s3
  { finish := s4.1, out := s4.2, agent := b.updateKnowledge }

/-- The local state of `Agent::run` together with the agent and two observers: the
number of `makeMove` calls made so far and the console text. -/
structure RunState where
  agent : Agent
  i : Int
  finish : Bool
  calls : Nat
  out : List String

/-- The state of `Agent::run` on entry. -/
def Agent.runEntry (a : Agent) : RunState :=
  { agent := a, i := 0, finish := false, calls := 0, out := [] }

/-- The `while (i < steps && !finish)` loop of `Agent::run`, unrolled at most `fuel`
times.  The `k`-th call of `makeMove` draws `rnd k` and sees `junk k` in `safeMoves`.
The body assigns `finish` only; `i` is not changed by the source. -/
def Agent.runLoop (steps : Int) (rnd : Nat → Nat) (junk : Nat → Nat → Int × Int) :
    Nat → RunState → RunState
  | 0, s => s
  | fuel + 1, s =>
    if decide (s.i < steps) && !s.finish then
      let m := s.agent.makeMove (rnd s.calls) (junk s.calls)
      Agent.runLoop steps rnd junk fuel
        { agent := m.agent, i := s.i, finish := m.finish, calls := s.calls + 1,
          out := s.out ++ m.out }
    else s

/-- Member function `Agent::run`: `some` final state when the loop has exited within `fuel` rounds. -/
def Agent.run (a : Agent) (steps : Int) (rnd : Nat → Nat) (junk : Nat → Nat → Int × Int)
    (fuel : Nat) : Option RunState :=
  let s := Agent.runLoop steps rnd junk fuel a.runEntry
  if decide (s.i < steps) && !s.finish then none
  else some { s with out := s.out ++ ["\nExploration complete. Ready for queries.\n"] }

/-- Member function `Agent::query`. -/
def Agent.query (a : Agent) (qx qy : Int) : String :=
  let c := a.knowledge qx qy
  let r0 := "Cell (" ++ toString qx ++ "," ++ toString qy ++ "): "
  let r1 := r0 ++ (if c.safe then "SAFE\n" else if c.unknown then "UNKNOWN\n" else "UNSAFE\n")
  let r2 := r1 ++ "  Breeze: "
  let r3 := r2 ++ (if c.breeze then "Yes\n" else "No\n")
  let r4 := r3 ++ "  Stench: "
  let r5 := r4 ++ (if c.stench then "Yes\n" else "No\n")
  let r6 := r5 ++ "    glow: "
  r6 ++ (if c.glow then "Yes\n" else "No\n")

/-- The object `Agent agent;` of `main` before `init`, for a given content of its
memory: every flag equal to `b`, every number equal to `q`. -/
def rawAgent (w : World) (b : Bool) (q : ℚ) : Agent :=
  { world := w
    knowledge := fun _ _ => ⟨b, b, b, b, b, q, q, q⟩
    visited := fun _ _ => b
    safe := fun _ _ => b
    x := 0
    y := 0 }

/-- The first steps of `main`: `init` and the first `updateKnowledge`. -/
def start (a : Agent) (w : World) : Agent :=
  (a.init w).updateKnowledge

/-- One call made on the agent after `init`: either `updateKnowledge` or `makeMove`
with its random value and the stale contents of `safeMoves`. -/
inductive Step where
  | update : Step
  | move (r : Nat) (junk : Nat → Int × Int) : Step

/-- The agent after one call. -/
def Agent.step (a : Agent) : Step → Agent
  | Step.update => a.updateKnowledge
  | Step.move r junk => (a.makeMove r junk).agent

/-- The agent after a sequence of calls. -/
def Agent.steps (a : Agent) (l : List Step) : Agent :=
  l.foldl Agent.step a

/-- Test deciding that direction `d` is appended to `safeMoves`. -/
def Agent.isSafeMove (a : Agent) (d : Int × Int) : Bool :=
  a.world.inBounds (a.x + d.1) (a.y + d.2) &&
    (a.safe (a.x + d.1) (a.y + d.2) && !a.visited (a.x + d.1) (a.y + d.2))

/-- Test deciding that direction `d` is appended to `unknownMoves`. -/
def Agent.isUnknownMove (a : Agent) (d : Int × Int) : Bool :=
  a.world.inBounds (a.x + d.1) (a.y + d.2) &&
    (!(a.safe (a.x + d.1) (a.y + d.2) && !a.visited (a.x + d.1) (a.y + d.2)) &&
      (a.knowledge (a.x + d.1) (a.y + d.2)).unknown)

/-- Test deciding that direction `d` is appended to `visitedMoves`. -/
def Agent.isVisitedMove (a : Agent) (d : Int × Int) : Bool :=
  a.world.inBounds (a.x + d.1) (a.y + d.2) &&
    (!(a.safe (a.x + d.1) (a.y + d.2) && !a.visited (a.x + d.1) (a.y + d.2)) &&
      (!(a.knowledge (a.x + d.1) (a.y + d.2)).unknown && a.visited (a.x + d.1) (a.y + d.2)))

/-- Test that `(i, j)` is an in-bounds orthogonal neighbour of the agent's coordinate. -/
def Agent.isNbr (a : Agent) (i j : Int) : Bool :=
  dirs.any (fun d => a.world.inBounds (a.x + d.1) (a.y + d.2) &&
    (decide (i = a.x + d.1) && decide (j = a.y + d.2)))

/-- The condition of the silence rule at the agent's coordinate. -/
def Agent.silent (a : Agent) : Bool :=
  !(a.world.percepts a.x a.y).breeze && !(a.world.percepts a.x a.y).stench

/-- The percept that triggers the spread block of a hazard kind. -/
def Percept.flag (p : Percept) : Hazard → Bool
  | Hazard.pit => p.breeze
  | Hazard.wumpus => p.stench
  | Hazard.paradise => p.glow

/-- Two cells agree on the five boolean fields. -/
def Cell.sameFlags (k k2 : Cell) : Prop :=
  k2.safe = k.safe ∧ k2.unknown = k.unknown ∧ k2.breeze = k.breeze ∧
    k2.stench = k.stench ∧ k2.glow = k.glow

/-- The agent `b` differs from `a` at most in probability fields. -/
def Agent.sameFrame (a b : Agent) : Prop :=
  b.world = a.world ∧ b.x = a.x ∧ b.y = a.y ∧ b.visited = a.visited ∧ b.safe = a.safe ∧
    ∀ i j, Cell.sameFlags (a.knowledge i j) (b.knowledge i j)

/-- Written from the specification: `c` is an orthogonal neighbour of `p`. -/
def orthogonal (p c : Int × Int) : Prop :=
  (c.1 = p.1 ∧ (c.2 = p.2 + 1 ∨ c.2 = p.2 - 1)) ∨ (c.2 = p.2 ∧ (c.1 = p.1 + 1 ∨ c.1 = p.1 - 1))

instance (p c : Int × Int) : Decidable (orthogonal p c) := by
  unfold orthogonal
  infer_instance

/-- Written from the specification: the candidate set of an observation at the agent's
coordinate, the in-bounds orthogonal neighbours that are not visited and not in the
safe-set. -/
def Agent.specCandidates (a : Agent) : Finset (Int × Int) :=
  (Finset.Icc 1 SIZE ×ˢ Finset.Icc 1 SIZE).filter
    (fun c => orthogonal (a.x, a.y) c ∧ a.visited c.1 c.2 = false ∧ a.safe c.1 c.2 = false)

/-- The 4x4 layout of the specification: pit at (3,1), wumpus at (4,4), paradise at (1,4). -/
def layoutWorld : World :=
  { pitCount := 1, pitX := fun _ => 3, pitY := fun _ => 1,
    wumpusX := 4, wumpusY := 4, paradiseX := 1, paradiseY := 4 }

/-- Stale `safeMoves` contents pointing at index `[0][0]`. -/
def zeroJunk : Nat → Int × Int := fun _ => (0, 0)

/-- Two pits, at (2,1) and (1,2): every in-bounds neighbour of the start is a pit. -/
def pitsWorld : World :=
  { pitCount := 2, pitX := fun i => if i = 0 then 2 else 1, pitY := fun i => if i = 0 then 1 else 2,
    wumpusX := 4, wumpusY := 4, paradiseX := 1, paradiseY := 4 }

/-- A pit at (2,1), the wumpus and paradise at (1,2): the start perceives all three. -/
def nearWorld : World :=
  { pitCount := 1, pitX := fun _ => 2, pitY := fun _ => 1,
    wumpusX := 1, wumpusY := 2, paradiseX := 1, paradiseY := 2 }

/-- One pit at (4,4), the wumpus at (4,3), paradise at (3,4). -/
def cornerWorld : World :=
  { pitCount := 1, pitX := fun _ => 4, pitY := fun _ => 4,
    wumpusX := 4, wumpusY := 3, paradiseX := 3, paradiseY := 4 }

/-- Random values `0,0,0,0,0,0,0,0,0,1,1,...`. -/
def cornerRnd : Nat → Nat := fun k => if k < 9 then 0 else 1

/-- Read `line[k]` of a `std::string`; past the last character it yields the null
character. -/
def charAt (line : String) (k : Nat) : Char :=
  line.data.getD k (Char.ofNat 0)

/-- The value `c - '0'` of a character. -/
def digitOf (c : Char) : Int :=
  (c.toNat : Int) - ('0'.toNat : Int)

/-- Body of the `while (getline(file, line))` loop of `World::load` for one line (the
warning written for a short line is left out). -/
def World.loadLine (w : World) (line : String) : World :=
  if line.length = 0 then w
  else if line.length < 7 then w
  else if charAt line 0 = 'w' then
    { w with
      pitX := fun i => if i = w.pitCount then digitOf (charAt line 7) else w.pitX i
      pitY := fun i => if i = w.pitCount then digitOf (charAt line 9) else w.pitY i
      pitCount := w.pitCount + 1 }
  else if charAt line 1 = 'i' then
    { w with wumpusX := digitOf (charAt line 4), wumpusY := digitOf (charAt line 6) }
  else if charAt line 1 = 'a' then
    { w with paradiseX := digitOf (charAt line 9), paradiseY := digitOf (charAt line 11) }
  else w

/-- Member function `World::load` on the lines of the file; `none` stands for a file that
cannot be opened, where the program exits. -/
def World.load (w : World) (file : Option (List String)) : Option World :=
  match file with
  | none => none
  | some lines => some (lines.foldl World.loadLine { w with pitCount := 0 })

/-- A spread block run on a given candidate list instead of the one collected from the
current safe array. -/
def Agent.spreadOn (cs : List (Int × Int)) (h : Hazard) (a : Agent) : Agent :=
  if cs.length > 0 then cs.foldl (Agent.raise h (1 / (cs.length : ℚ))) a else a

/-- Written from the specification: `updateKnowledge` with the three spread blocks run on
the candidates collected from the safe array as it was before the silence rule. -/
def Agent.updateKnowledgePreSilence (a : Agent) : Agent :=
  let p := a.world.percepts a.x a.y
  let cs := (a.record p).candidates
  let a2 := a.observe
  let a3 := if p.breeze then a2.spreadOn cs Hazard.pit else a2
  let a4 := if p.stench then a3.spreadOn cs Hazard.wumpus else a3
  if p.glow then a4.spreadOn cs Hazard.paradise else a4

/-- A pit at (1,2), the wumpus at (1,3), paradise at (4,4). -/
def riskWorld : World :=
  { pitCount := 1, pitX := fun _ => 1, pitY := fun _ => 2,
    wumpusX := 1, wumpusY := 3, paradiseX := 4, paradiseY := 4 }

/-- A pit and the wumpus both at (2,1), paradise at (4,4). -/
def clashWorld : World :=
  { pitCount := 1, pitX := fun _ => 2, pitY := fun _ => 1,
    wumpusX := 2, wumpusY := 1, paradiseX := 4, paradiseY := 4 }

/-- Paradise at (1,2) next to the start, the pit at (3,1) and the wumpus at (4,4) away
from it. -/
def glowWorld : World :=
  { pitCount := 1, pitX := fun _ => 3, pitY := fun _ => 1,
    wumpusX := 4, wumpusY := 4, paradiseX := 1, paradiseY := 2 }

/-- The console line written by `makeMove` after the position assignment. -/
def movedMsg (x y : Int) : String :=
  "Moved to (" ++ toString x ++ "," ++ toString y ++ ")\n"

/-- Test that `(x, y)` is one of the first `pitCount` pit coordinates. -/
def World.pitAt (w : World) (x y : Int) : Bool :=
  (List.range w.pitCount).any (fun k => decide (x = w.pitX k ∧ y = w.pitY k))

/-- Test that `knowledge[c.1][c.2]` lies inside the array `Cell knowledge[SIZE+1][SIZE+1]`. -/
def inArray (c : Int × Int) : Bool :=
  decide (0 ≤ c.1) && decide (c.1 ≤ SIZE) && decide (0 ≤ c.2) && decide (c.2 ≤ SIZE)

/-- The scan of the unknown branch with its reads of `knowledge` checked: `none` as soon
as `safeMoves[i]` or `safeMoves[dir]` indexes outside the array, where the program has
undefined behaviour and may abort. -/
def Agent.scanChecked (a : Agent) (m : Moves) (junk : Nat → Int × Int) (dir : Nat) :
    Option Nat :=
  (List.range m.unknownMoves.length).foldl
    (fun acc i => acc.bind (fun dir =>
      if inArray (readArr m.safeMoves junk i) && inArray (readArr m.safeMoves junk dir) then
        some (if a.risk (readArr m.safeMoves junk i) < a.risk (readArr m.safeMoves junk dir)
          then i else dir)
      else none)) (some dir)

/-- Member function `Agent::chooseNextMove` with the reads of the scan checked: `none`
when the scan indexes `knowledge` outside the array. -/
def Agent.chooseNextMoveChecked (a : Agent) (r : Nat) (junk : Nat → Int × Int) :
    Option (Int × Int) :=
  let m := a.classify
  if m.safeMoves.length > 0 then
    some (readArr m.safeMoves junk (r % m.safeMoves.length))
  else if m.unknownMoves.length > 0 then
    (a.scanChecked m junk (r % m.unknownMoves.length)).map
      (fun dir => m.unknownMoves.getD dir (a.x, a.y))
  else if m.visitedMoves.length > 0 then
    some (m.visitedMoves.getD (r % m.visitedMoves.length) (a.x, a.y))
  else some (a.x, a.y)

/-- Member function `Agent::makeMove` with the reads of the scan checked: `none` when its
call of `chooseNextMove` indexes `knowledge` outside the array, else what `makeMove`
yields. -/
def Agent.makeMoveChecked (a : Agent) (r : Nat) (junk : Nat → Int × Int) :
    Option MoveResult :=
  (a.chooseNextMoveChecked r junk).map (fun _ => a.makeMove r junk)

/-- Stale `safeMoves` contents that index far outside the array. -/
def farJunk : Nat → Int × Int := fun _ => (1000, 1000)

/-! ## Properties -/

theorem readArr_mem (l : List (Int × Int)) (junk : Nat → Int × Int) (i : Nat)
    (h : i < l.length) : readArr l junk i ∈ l := by
  unfold readArr
  rw [List.getD_eq_getElem l (junk i) h]
  exact List.getElem_mem h

theorem getD_mem (l : List (Int × Int)) (d : Int × Int) (i : Nat)
    (h : i < l.length) : l.getD i d ∈ l := by
  rw [List.getD_eq_getElem l d h]
  exact List.getElem_mem h

/-- Membership in a list built by a loop that appends `f d` whenever `P d` holds. -/
theorem mem_fold_append {σ : Type} (step : σ → Int × Int → σ) (proj : σ → List (Int × Int))
    (P : Int × Int → Bool) (f : Int × Int → Int × Int)
    (hstep : ∀ m d, proj (step m d) = if P d = true then proj m ++ [f d] else proj m)
    (c : Int × Int) (ds : List (Int × Int)) (m : σ) :
    c ∈ proj (ds.foldl step m) ↔ c ∈ proj m ∨ ∃ d ∈ ds, P d = true ∧ c = f d := by
  induction ds generalizing m with
  | nil => simp
  | cons d ds ih =>
    rw [List.foldl_cons, ih, hstep]
    by_cases hp : P d = true
    · rw [if_pos hp, List.mem_append, List.mem_singleton, List.exists_mem_cons_iff]
      constructor
      · rintro ((h | h) | h)
        · exact Or.inl h
        · exact Or.inr (Or.inl ⟨hp, h⟩)
        · exact Or.inr (Or.inr h)
      · rintro (h | ⟨_, h⟩ | h)
        · exact Or.inl (Or.inl h)
        · exact Or.inl (Or.inr h)
        · exact Or.inr h
    · rw [if_neg hp, List.exists_mem_cons_iff]
      constructor
      · rintro (h | h)
        · exact Or.inl h
        · exact Or.inr (Or.inr h)
      · rintro (h | ⟨hpe, _⟩ | h)
        · exact Or.inl h
        · exact absurd hpe hp
        · exact Or.inr h

theorem classifyStep_safe (a : Agent) (m : Moves) (d : Int × Int) :
    (a.classifyStep m d).safeMoves =
      if a.isSafeMove d = true then m.safeMoves ++ [(a.x + d.1, a.y + d.2)] else m.safeMoves := by
  unfold Agent.classifyStep Agent.isSafeMove
  dsimp only
  generalize a.world.inBounds (a.x + d.1) (a.y + d.2) = b1
  generalize a.safe (a.x + d.1) (a.y + d.2) = b2
  generalize a.visited (a.x + d.1) (a.y + d.2) = b3
  generalize (a.knowledge (a.x + d.1) (a.y + d.2)).unknown = b4
  cases b1 <;> cases b2 <;> cases b3 <;> cases b4 <;> simp

theorem classifyStep_unknown (a : Agent) (m : Moves) (d : Int × Int) :
    (a.classifyStep m d).unknownMoves =
      if a.isUnknownMove d = true then m.unknownMoves ++ [(a.x + d.1, a.y + d.2)]
      else m.unknownMoves := by
  unfold Agent.classifyStep Agent.isUnknownMove
  dsimp only
  generalize a.world.inBounds (a.x + d.1) (a.y + d.2) = b1
  generalize a.safe (a.x + d.1) (a.y + d.2) = b2
  generalize a.visited (a.x + d.1) (a.y + d.2) = b3
  generalize (a.knowledge (a.x + d.1) (a.y + d.2)).unknown = b4
  cases b1 <;> cases b2 <;> cases b3 <;> cases b4 <;> simp

theorem classifyStep_visited (a : Agent) (m : Moves) (d : Int × Int) :
    (a.classifyStep m d).visitedMoves =
      if a.isVisitedMove d = true then m.visitedMoves ++ [(a.x + d.1, a.y + d.2)]
      else m.visitedMoves := by
  unfold Agent.classifyStep Agent.isVisitedMove
  dsimp only
  generalize a.world.inBounds (a.x + d.1) (a.y + d.2) = b1
  generalize a.safe (a.x + d.1) (a.y + d.2) = b2
  generalize a.visited (a.x + d.1) (a.y + d.2) = b3
  generalize (a.knowledge (a.x + d.1) (a.y + d.2)).unknown = b4
  cases b1 <;> cases b2 <;> cases b3 <;> cases b4 <;> simp

theorem mem_safeMoves (a : Agent) (c : Int × Int) :
    c ∈ a.classify.safeMoves ↔
      ∃ d ∈ dirs, a.isSafeMove d = true ∧ c = (a.x + d.1, a.y + d.2) := by
  unfold Agent.classify
  rw [mem_fold_append a.classifyStep Moves.safeMoves a.isSafeMove
    (fun d => (a.x + d.1, a.y + d.2)) (classifyStep_safe a)]
  simp

theorem mem_unknownMoves (a : Agent) (c : Int × Int) :
    c ∈ a.classify.unknownMoves ↔
      ∃ d ∈ dirs, a.isUnknownMove d = true ∧ c = (a.x + d.1, a.y + d.2) := by
  unfold Agent.classify
  rw [mem_fold_append a.classifyStep Moves.unknownMoves a.isUnknownMove
    (fun d => (a.x + d.1, a.y + d.2)) (classifyStep_unknown a)]
  simp

theorem mem_visitedMoves (a : Agent) (c : Int × Int) :
    c ∈ a.classify.visitedMoves ↔
      ∃ d ∈ dirs, a.isVisitedMove d = true ∧ c = (a.x + d.1, a.y + d.2) := by
  unfold Agent.classify
  rw [mem_fold_append a.classifyStep Moves.visitedMoves a.isVisitedMove
    (fun d => (a.x + d.1, a.y + d.2)) (classifyStep_visited a)]
  simp

theorem dirs_ne (d : Int × Int) (h : d ∈ dirs) (x y : Int) : (x + d.1, y + d.2) ≠ (x, y) := by
  simp only [dirs, List.mem_cons, List.mem_singleton, List.not_mem_nil, or_false] at h
  intro he
  rw [Prod.mk.injEq] at he
  rcases h with h | h | h | h <;> subst h <;> simp at he

/-- C1 (move priority): when the current coordinate is in bounds and some in-bounds
orthogonal neighbour is in the safe array and not visited, then for every random value
(and every stale content of the move array) `chooseNextMove` returns an orthogonal
neighbour that is in bounds, in the safe array and not visited; it is not an entry of
the unknown list or of the visited list, and it is not the current coordinate. -/
theorem chooseNextMove_prefers_safe (a : Agent) (r : Nat) (junk : Nat → Int × Int)
    (_hcur : a.world.inBounds a.x a.y = true)
    (h : ∃ d ∈ dirs, a.world.inBounds (a.x + d.1) (a.y + d.2) = true ∧
        a.safe (a.x + d.1) (a.y + d.2) = true ∧ a.visited (a.x + d.1) (a.y + d.2) = false) :
    (∃ d ∈ dirs, a.chooseNextMove r junk = (a.x + d.1, a.y + d.2)) ∧
    a.world.inBounds (a.chooseNextMove r junk).1 (a.chooseNextMove r junk).2 = true ∧
    a.safe (a.chooseNextMove r junk).1 (a.chooseNextMove r junk).2 = true ∧
    a.visited (a.chooseNextMove r junk).1 (a.chooseNextMove r junk).2 = false ∧
    a.chooseNextMove r junk ∉ a.classify.unknownMoves ∧
    a.chooseNextMove r junk ∉ a.classify.visitedMoves ∧
    a.chooseNextMove r junk ≠ (a.x, a.y) := by
  obtain ⟨d0, hd0, hb0, hs0, hv0⟩ := h
  have hmem0 : (a.x + d0.1, a.y + d0.2) ∈ a.classify.safeMoves :=
    (mem_safeMoves a _).2 ⟨d0, hd0, by simp [Agent.isSafeMove, hb0, hs0, hv0], rfl⟩
  have hpos : 0 < a.classify.safeMoves.length := List.length_pos_of_mem hmem0
  have hres : a.chooseNextMove r junk =
      readArr a.classify.safeMoves junk (r % a.classify.safeMoves.length) := by
    unfold Agent.chooseNextMove
    simp [hpos]
  have hin : a.chooseNextMove r junk ∈ a.classify.safeMoves := by
    rw [hres]
    exact readArr_mem _ _ _ (Nat.mod_lt _ hpos)
  obtain ⟨d, hd, hP, he⟩ := (mem_safeMoves a _).1 hin
  simp only [Agent.isSafeMove, Bool.and_eq_true, Bool.not_eq_true'] at hP
  obtain ⟨hb, hs, hv⟩ := hP
  refine ⟨⟨d, hd, he⟩, ?_, ?_, ?_, ?_, ?_, ?_⟩
  · rw [he]; exact hb
  · rw [he]; exact hs
  · rw [he]; exact hv
  · intro hu
    obtain ⟨e, _, hQ, he2⟩ := (mem_unknownMoves a _).1 hu
    rw [he, Prod.mk.injEq] at he2
    simp only [Agent.isUnknownMove, ← he2.1, ← he2.2, hs, hv] at hQ
    simp at hQ
  · intro hu
    obtain ⟨e, _, hQ, he2⟩ := (mem_visitedMoves a _).1 hu
    rw [he, Prod.mk.injEq] at he2
    simp only [Agent.isVisitedMove, ← he2.1, ← he2.2, hs, hv] at hQ
    simp at hQ
  · rw [he]
    exact dirs_ne d hd a.x a.y

/-! ### Frame of the spread blocks -/

theorem sameFrame_refl (a : Agent) : a.sameFrame a :=
  ⟨rfl, rfl, rfl, rfl, rfl, fun _ _ => ⟨rfl, rfl, rfl, rfl, rfl⟩⟩

theorem sameFrame_trans {a b c : Agent} (h1 : a.sameFrame b) (h2 : b.sameFrame c) :
    a.sameFrame c := by
  obtain ⟨w1, x1, y1, v1, s1, k1⟩ := h1
  obtain ⟨w2, x2, y2, v2, s2, k2⟩ := h2
  refine ⟨w2.trans w1, x2.trans x1, y2.trans y1, v2.trans v1, s2.trans s1, fun i j => ?_⟩
  obtain ⟨p1, p2, p3, p4, p5⟩ := k1 i j
  obtain ⟨q1, q2, q3, q4, q5⟩ := k2 i j
  exact ⟨q1.trans p1, q2.trans p2, q3.trans p3, q4.trans p4, q5.trans p5⟩

theorem setProb_sameFlags (k : Cell) (h : Hazard) (q : ℚ) : k.sameFlags (k.setProb h q) := by
  cases h <;> exact ⟨rfl, rfl, rfl, rfl, rfl⟩

theorem raise_sameFrame (h : Hazard) (q : ℚ) (a : Agent) (c : Int × Int) :
    a.sameFrame (Agent.raise h q a c) := by
  unfold Agent.raise
  split
  · refine ⟨rfl, rfl, rfl, rfl, rfl, fun i j => ?_⟩
    simp only [Grid.modify]
    split
    · exact setProb_sameFlags _ _ _
    · exact ⟨rfl, rfl, rfl, rfl, rfl⟩
  · exact sameFrame_refl a

theorem fold_raise_sameFrame (h : Hazard) (q : ℚ) (cs : List (Int × Int)) (a : Agent) :
    a.sameFrame (cs.foldl (Agent.raise h q) a) := by
  induction cs generalizing a with
  | nil => exact sameFrame_refl a
  | cons c cs ih => exact sameFrame_trans (raise_sameFrame h q a c) (ih _)

theorem spread_sameFrame (h : Hazard) (a : Agent) : a.sameFrame (a.spread h) := by
  unfold Agent.spread
  dsimp only
  split
  · exact fold_raise_sameFrame _ _ _ _
  · exact sameFrame_refl a

theorem candidates_congr {a b : Agent} (h : a.sameFrame b) : b.candidates = a.candidates := by
  obtain ⟨w, x, y, v, s, _⟩ := h
  unfold Agent.candidates
  rw [w, x, y, v, s]

/-! ### Probability fields under the spread blocks -/

theorem setProb_prob (k : Cell) (h h2 : Hazard) (q : ℚ) :
    (k.setProb h q).prob h2 = if h2 = h then q else k.prob h2 := by
  cases h <;> cases h2 <;> simp [Cell.setProb, Cell.prob]

theorem raise_prob (h h2 : Hazard) (q : ℚ) (a : Agent) (c : Int × Int) (i j : Int) :
    ((Agent.raise h q a c).knowledge i j).prob h2 =
      if h2 = h ∧ i = c.1 ∧ j = c.2 then max ((a.knowledge i j).prob h2) q
      else (a.knowledge i j).prob h2 := by
  unfold Agent.raise
  by_cases hlt : (a.knowledge c.1 c.2).prob h < q
  · rw [if_pos hlt]
    simp only [Grid.modify]
    by_cases hc : i = c.1 ∧ j = c.2
    · rw [if_pos hc, setProb_prob]
      by_cases hh : h2 = h
      · rw [if_pos hh, if_pos ⟨hh, hc⟩, hh, hc.1, hc.2, max_eq_right (le_of_lt hlt)]
      · rw [if_neg hh, if_neg (fun hx => hh hx.1)]
    · rw [if_neg hc, if_neg (fun hx => hc hx.2)]
  · rw [if_neg hlt]
    by_cases hx : h2 = h ∧ i = c.1 ∧ j = c.2
    · rw [if_pos hx, hx.1, hx.2.1, hx.2.2, max_eq_left (not_lt.1 hlt)]
    · rw [if_neg hx]

theorem fold_raise_prob (h h2 : Hazard) (q : ℚ) (cs : List (Int × Int)) (a : Agent) (i j : Int) :
    ((cs.foldl (Agent.raise h q) a).knowledge i j).prob h2 =
      if h2 = h ∧ (i, j) ∈ cs then max ((a.knowledge i j).prob h2) q
      else (a.knowledge i j).prob h2 := by
  induction cs generalizing a with
  | nil => simp
  | cons c cs ih =>
    rw [List.foldl_cons, ih, raise_prob]
    have hc : (i, j) = c ↔ i = c.1 ∧ j = c.2 := by
      constructor
      · intro e; rw [← e]; exact ⟨rfl, rfl⟩
      · intro e; exact Prod.ext e.1 e.2
    by_cases hh : h2 = h
    · by_cases h1 : (i, j) = c
      · have h1x := hc.1 h1
        by_cases h2m : (i, j) ∈ cs
        · simp [hh, h1x, h2m, h1]
        · simp [hh, h1x, h2m, h1]
      · have h1x : ¬ (i = c.1 ∧ j = c.2) := fun e => h1 (hc.2 e)
        by_cases h2m : (i, j) ∈ cs
        · simp [hh, h1x, h2m, h1]
        · simp [hh, h1x, h2m, h1]
    · simp [hh]

theorem spread_prob (h h2 : Hazard) (a : Agent) (i j : Int) :
    ((a.spread h).knowledge i j).prob h2 =
      if h2 = h ∧ (i, j) ∈ a.candidates
      then max ((a.knowledge i j).prob h2) (1 / (a.candidates.length : ℚ))
      else (a.knowledge i j).prob h2 := by
  unfold Agent.spread
  dsimp only
  by_cases hpos : a.candidates.length > 0
  · rw [if_pos hpos, fold_raise_prob]
  · rw [if_neg hpos]
    have hnil : a.candidates = [] := List.length_eq_zero.1 (by omega)
    simp [hnil]

theorem spread_prob_le (h h2 : Hazard) (a : Agent) (i j : Int) :
    (a.knowledge i j).prob h2 ≤ ((a.spread h).knowledge i j).prob h2 := by
  rw [spread_prob]
  split
  · exact le_max_left _ _
  · exact le_refl _

/-! ### The recording step and the silence rule -/

theorem silenceStep_frame (a : Agent) (d : Int × Int) :
    (a.silenceStep d).world = a.world ∧ (a.silenceStep d).x = a.x ∧
      (a.silenceStep d).y = a.y ∧ (a.silenceStep d).visited = a.visited := by
  unfold Agent.silenceStep
  dsimp only
  split <;> exact ⟨rfl, rfl, rfl, rfl⟩

theorem silenceStep_safe (a : Agent) (d : Int × Int) (i j : Int) :
    (a.silenceStep d).safe i j =
      (a.safe i j || (a.world.inBounds (a.x + d.1) (a.y + d.2) &&
        (decide (i = a.x + d.1) && decide (j = a.y + d.2)))) := by
  unfold Agent.silenceStep
  dsimp only
  cases hb : a.world.inBounds (a.x + d.1) (a.y + d.2)
  · simp
  · simp only [if_true, Grid.set, Bool.true_and]
    by_cases hc : i = a.x + d.1 ∧ j = a.y + d.2
    · simp [hc]
    · rw [if_neg hc]
      have : (decide (i = a.x + d.1) && decide (j = a.y + d.2)) = false := by
        simpa using hc
      rw [this, Bool.or_false]

/-- A cell after the silence rule marked it. -/
theorem silenceStep_knowledge (a : Agent) (d : Int × Int) (i j : Int) :
    (a.silenceStep d).knowledge i j =
      if (a.world.inBounds (a.x + d.1) (a.y + d.2) &&
        (decide (i = a.x + d.1) && decide (j = a.y + d.2))) = true
      then { a.knowledge i j with safe := true, unknown := false }
      else a.knowledge i j := by
  unfold Agent.silenceStep
  dsimp only
  cases hb : a.world.inBounds (a.x + d.1) (a.y + d.2)
  · simp
  · simp only [if_true, Grid.modify, Bool.true_and]
    by_cases hc : i = a.x + d.1 ∧ j = a.y + d.2
    · simp [hc]
    · rw [if_neg hc]
      have : (decide (i = a.x + d.1) && decide (j = a.y + d.2)) = false := by
        simpa using hc
      rw [this]
      simp

theorem fold_silence (ds : List (Int × Int)) (a : Agent) :
    (ds.foldl Agent.silenceStep a).world = a.world ∧
    (ds.foldl Agent.silenceStep a).x = a.x ∧
    (ds.foldl Agent.silenceStep a).y = a.y ∧
    (ds.foldl Agent.silenceStep a).visited = a.visited ∧
    (∀ i j, (ds.foldl Agent.silenceStep a).safe i j =
      (a.safe i j || ds.any (fun d => a.world.inBounds (a.x + d.1) (a.y + d.2) &&
        (decide (i = a.x + d.1) && decide (j = a.y + d.2))))) ∧
    (∀ i j, (ds.foldl Agent.silenceStep a).knowledge i j =
      if ds.any (fun d => a.world.inBounds (a.x + d.1) (a.y + d.2) &&
        (decide (i = a.x + d.1) && decide (j = a.y + d.2))) = true
      then { a.knowledge i j with safe := true, unknown := false }
      else a.knowledge i j) := by
  induction ds generalizing a with
  | nil => simp
  | cons d ds ih =>
    obtain ⟨hw, hx, hy, hv, hs, hk⟩ := ih (a.silenceStep d)
    obtain ⟨fw, fx, fy, fv⟩ := silenceStep_frame a d
    rw [List.foldl_cons]
    refine ⟨hw.trans fw, hx.trans fx, hy.trans fy, hv.trans fv, fun i j => ?_, fun i j => ?_⟩
    · rw [hs, fw, fx, fy, silenceStep_safe, List.any_cons, Bool.or_assoc]
    · rw [hk, fw, fx, fy, silenceStep_knowledge, List.any_cons]
      cases (a.world.inBounds (a.x + d.1) (a.y + d.2) &&
        (decide (i = a.x + d.1) && decide (j = a.y + d.2))) <;>
      cases (ds.any (fun d => a.world.inBounds (a.x + d.1) (a.y + d.2) &&
        (decide (i = a.x + d.1) && decide (j = a.y + d.2)))) <;> simp

theorem observe_frame (a : Agent) :
    a.observe.world = a.world ∧ a.observe.x = a.x ∧ a.observe.y = a.y := by
  unfold Agent.observe
  dsimp only
  split
  · obtain ⟨hw, hx, hy, _⟩ := fold_silence dirs (a.record (a.world.percepts a.x a.y))
    exact ⟨hw, hx, hy⟩
  · exact ⟨rfl, rfl, rfl⟩

theorem observe_visited (a : Agent) (i j : Int) :
    a.observe.visited i j = if i = a.x ∧ j = a.y then true else a.visited i j := by
  unfold Agent.observe
  dsimp only
  split
  · obtain ⟨_, _, _, hv, _⟩ := fold_silence dirs (a.record (a.world.percepts a.x a.y))
    unfold Agent.silence
    rw [hv]
    rfl
  · rfl

theorem observe_safe (a : Agent) (i j : Int) :
    a.observe.safe i j = (a.safe i j || (a.silent && a.isNbr i j)) := by
  unfold Agent.observe Agent.silent
  dsimp only
  cases hs : (!(a.world.percepts a.x a.y).breeze && !(a.world.percepts a.x a.y).stench)
  · simp [Agent.record]
  · obtain ⟨_, _, _, _, hsf, _⟩ := fold_silence dirs (a.record (a.world.percepts a.x a.y))
    rw [if_pos rfl]
    unfold Agent.silence
    rw [hsf]
    simp [Agent.record, Agent.isNbr]

theorem observe_knowledge (a : Agent) (i j : Int) :
    a.observe.knowledge i j =
      { safe := (a.knowledge i j).safe || (a.silent && a.isNbr i j)
        unknown := (a.knowledge i j).unknown && !(decide (i = a.x ∧ j = a.y)) &&
          !(a.silent && a.isNbr i j)
        breeze := if i = a.x ∧ j = a.y then (a.world.percepts a.x a.y).breeze
          else (a.knowledge i j).breeze
        stench := if i = a.x ∧ j = a.y then (a.world.percepts a.x a.y).stench
          else (a.knowledge i j).stench
        glow := if i = a.x ∧ j = a.y then (a.world.percepts a.x a.y).glow
          else (a.knowledge i j).glow
        p_pit := (a.knowledge i j).p_pit
        p_wumpus := (a.knowledge i j).p_wumpus
        p_paradise := (a.knowledge i j).p_paradise } := by
  unfold Agent.observe Agent.silent
  dsimp only
  cases hs : (!(a.world.percepts a.x a.y).breeze && !(a.world.percepts a.x a.y).stench)
  · by_cases hc : i = a.x ∧ j = a.y
    · simp [Agent.record, Grid.modify, hc]
    · simp [Agent.record, Grid.modify, hc]
  · obtain ⟨_, _, _, _, _, hk⟩ := fold_silence dirs (a.record (a.world.percepts a.x a.y))
    rw [if_pos rfl]
    unfold Agent.silence
    rw [hk]
    have hn : (dirs.any (fun d =>
        (a.record (a.world.percepts a.x a.y)).world.inBounds
          ((a.record (a.world.percepts a.x a.y)).x + d.1)
          ((a.record (a.world.percepts a.x a.y)).y + d.2) &&
        (decide (i = (a.record (a.world.percepts a.x a.y)).x + d.1) &&
          decide (j = (a.record (a.world.percepts a.x a.y)).y + d.2)))) = a.isNbr i j := rfl
    rw [hn]
    cases a.isNbr i j
    · by_cases hc : i = a.x ∧ j = a.y
      · simp [Agent.record, Grid.modify, hc]
      · simp [Agent.record, Grid.modify, hc]
    · by_cases hc : i = a.x ∧ j = a.y
      · simp [Agent.record, Grid.modify, hc]
      · simp [Agent.record, Grid.modify, hc]

/-! ### Closed form of `updateKnowledge` -/

theorem stage_sameFrame (b : Bool) (h : Hazard) (a : Agent) :
    a.sameFrame (if b = true then a.spread h else a) := by
  cases b
  · exact sameFrame_refl a
  · exact spread_sameFrame h a

theorem stage_prob (b : Bool) (h h2 : Hazard) (a : Agent) (i j : Int) :
    ((if b = true then a.spread h else a).knowledge i j).prob h2 =
      if b = true ∧ h2 = h ∧ (i, j) ∈ a.candidates
      then max ((a.knowledge i j).prob h2) (1 / (a.candidates.length : ℚ))
      else (a.knowledge i j).prob h2 := by
  cases b
  · simp
  · simp only [if_true, true_and]
    exact spread_prob h h2 a i j

theorem updateKnowledge_sameFrame (a : Agent) : a.observe.sameFrame a.updateKnowledge := by
  unfold Agent.updateKnowledge
  dsimp only
  exact sameFrame_trans (sameFrame_trans (stage_sameFrame _ _ _) (stage_sameFrame _ _ _))
    (stage_sameFrame _ _ _)

theorem updateKnowledge_prob (a : Agent) (h : Hazard) (i j : Int) :
    ((a.updateKnowledge).knowledge i j).prob h =
      if (a.world.percepts a.x a.y).flag h = true ∧ (i, j) ∈ a.observe.candidates
      then max ((a.knowledge i j).prob h) (1 / (a.observe.candidates.length : ℚ))
      else (a.knowledge i j).prob h := by
  have hobs : ∀ h2, (a.observe.knowledge i j).prob h2 = (a.knowledge i j).prob h2 := by
    intro h2
    rw [observe_knowledge]
    cases h2 <;> rfl
  have c1 := candidates_congr
    (stage_sameFrame (a.world.percepts a.x a.y).breeze Hazard.pit a.observe)
  have c2 := candidates_congr
    (stage_sameFrame (a.world.percepts a.x a.y).stench Hazard.wumpus
      (if (a.world.percepts a.x a.y).breeze = true then a.observe.spread Hazard.pit
        else a.observe))
  unfold Agent.updateKnowledge
  dsimp only
  rw [stage_prob, stage_prob, stage_prob, c2, c1, hobs]
  cases h <;> simp [Percept.flag]

theorem updateKnowledge_frame (a : Agent) :
    a.updateKnowledge.world = a.world ∧ a.updateKnowledge.x = a.x ∧
      a.updateKnowledge.y = a.y := by
  obtain ⟨hw, hx, hy, _⟩ := updateKnowledge_sameFrame a
  obtain ⟨ow, ox, oy⟩ := observe_frame a
  exact ⟨hw.trans ow, hx.trans ox, hy.trans oy⟩

theorem updateKnowledge_visited (a : Agent) (i j : Int) :
    a.updateKnowledge.visited i j = if i = a.x ∧ j = a.y then true else a.visited i j := by
  obtain ⟨_, _, _, hv, _⟩ := updateKnowledge_sameFrame a
  rw [hv, observe_visited]

theorem updateKnowledge_safe (a : Agent) (i j : Int) :
    a.updateKnowledge.safe i j = (a.safe i j || (a.silent && a.isNbr i j)) := by
  obtain ⟨_, _, _, _, hs, _⟩ := updateKnowledge_sameFrame a
  rw [hs, observe_safe]

theorem updateKnowledge_flags (a : Agent) (i j : Int) :
    (a.updateKnowledge.knowledge i j).safe =
      ((a.knowledge i j).safe || (a.silent && a.isNbr i j)) ∧
    (a.updateKnowledge.knowledge i j).unknown =
      ((a.knowledge i j).unknown && !(decide (i = a.x ∧ j = a.y)) &&
        !(a.silent && a.isNbr i j)) ∧
    (a.updateKnowledge.knowledge i j).breeze =
      (if i = a.x ∧ j = a.y then (a.world.percepts a.x a.y).breeze
        else (a.knowledge i j).breeze) ∧
    (a.updateKnowledge.knowledge i j).stench =
      (if i = a.x ∧ j = a.y then (a.world.percepts a.x a.y).stench
        else (a.knowledge i j).stench) ∧
    (a.updateKnowledge.knowledge i j).glow =
      (if i = a.x ∧ j = a.y then (a.world.percepts a.x a.y).glow
        else (a.knowledge i j).glow) := by
  obtain ⟨_, _, _, _, _, hk⟩ := updateKnowledge_sameFrame a
  obtain ⟨h1, h2, h3, h4, h5⟩ := hk i j
  rw [h1, h2, h3, h4, h5, observe_knowledge]
  exact ⟨rfl, rfl, rfl, rfl, rfl⟩

theorem updateKnowledge_prob_le (a : Agent) (h : Hazard) (i j : Int) :
    (a.knowledge i j).prob h ≤ ((a.updateKnowledge).knowledge i j).prob h := by
  rw [updateKnowledge_prob]
  split
  · exact le_max_left _ _
  · exact le_refl _

theorem isNbr_of_dir (a : Agent) (d : Int × Int) (hd : d ∈ dirs)
    (hb : a.world.inBounds (a.x + d.1) (a.y + d.2) = true) :
    a.isNbr (a.x + d.1) (a.y + d.2) = true := by
  unfold Agent.isNbr
  rw [List.any_eq_true]
  exact ⟨d, hd, by simp [hb]⟩

theorem isNbr_iff (a : Agent) (i j : Int) :
    a.isNbr i j = true ↔
      ∃ d ∈ dirs, a.world.inBounds (a.x + d.1) (a.y + d.2) = true ∧
        i = a.x + d.1 ∧ j = a.y + d.2 := by
  unfold Agent.isNbr
  rw [List.any_eq_true]
  simp only [Bool.and_eq_true, decide_eq_true_eq]

/-! ### Closed form of `init` -/

theorem mem_range4 (i : Int) : i ∈ ([1, 2, 3, 4] : List Int) ↔ 1 ≤ i ∧ i ≤ 4 := by
  simp only [List.mem_cons, List.mem_singleton, List.not_mem_nil, or_false]
  omega

theorem mem_allCells (w : World) (i j : Int) : (i, j) ∈ allCells ↔ w.inBounds i j = true := by
  have h : (i, j) ∈ allCells ↔ i ∈ ([1, 2, 3, 4] : List Int) ∧ j ∈ ([1, 2, 3, 4] : List Int) := by
    unfold allCells
    rw [List.mem_flatMap]
    constructor
    · rintro ⟨a, ha, hm⟩
      rw [List.mem_map] at hm
      obtain ⟨b, hb, he⟩ := hm
      rw [Prod.mk.injEq] at he
      rw [← he.1, ← he.2]
      exact ⟨ha, hb⟩
    · rintro ⟨hi, hj⟩
      exact ⟨i, hi, List.mem_map.2 ⟨j, hj, rfl⟩⟩
  rw [h, mem_range4, mem_range4]
  simp only [World.inBounds, SIZE, Bool.and_eq_true, decide_eq_true_eq, ge_iff_le]
  tauto

theorem fold_initCell (cs : List (Int × Int)) (a : Agent) :
    (cs.foldl Agent.initCell a).world = a.world ∧
    (cs.foldl Agent.initCell a).x = a.x ∧
    (cs.foldl Agent.initCell a).y = a.y ∧
    (∀ i j, (cs.foldl Agent.initCell a).visited i j =
      if (i, j) ∈ cs then false else a.visited i j) ∧
    (∀ i j, (cs.foldl Agent.initCell a).safe i j =
      if (i, j) ∈ cs then false else a.safe i j) ∧
    (∀ i j, (cs.foldl Agent.initCell a).knowledge i j =
      if (i, j) ∈ cs then
        { safe := false, unknown := true, breeze := false, stench := false,
          glow := (a.knowledge i j).glow, p_pit := 0, p_wumpus := 0, p_paradise := 0 }
      else a.knowledge i j) := by
  induction cs generalizing a with
  | nil => simp
  | cons c cs ih =>
    obtain ⟨hw, hx, hy, hv, hs, hk⟩ := ih (a.initCell c)
    rw [List.foldl_cons]
    have hc : ∀ i j : Int, (i, j) = c ↔ i = c.1 ∧ j = c.2 := by
      intro i j
      constructor
      · intro e; rw [← e]; exact ⟨rfl, rfl⟩
      · intro e; exact Prod.ext e.1 e.2
    refine ⟨hw, hx, hy, fun i j => ?_, fun i j => ?_, fun i j => ?_⟩
    · rw [hv]
      by_cases h1 : i = c.1 ∧ j = c.2
      · have h3 : (i, j) = c := (hc i j).2 h1
        simp [Agent.initCell, Grid.set, h1, h3]
      · have h3 : ¬ (i, j) = c := fun e => h1 ((hc i j).1 e)
        simp [Agent.initCell, Grid.set, h1, h3]
    · rw [hs]
      by_cases h1 : i = c.1 ∧ j = c.2
      · have h3 : (i, j) = c := (hc i j).2 h1
        simp [Agent.initCell, Grid.set, h1, h3]
      · have h3 : ¬ (i, j) = c := fun e => h1 ((hc i j).1 e)
        simp [Agent.initCell, Grid.set, h1, h3]
    · rw [hk]
      by_cases h1 : i = c.1 ∧ j = c.2
      · have h3 : (i, j) = c := (hc i j).2 h1
        by_cases h2 : (i, j) ∈ cs <;> simp [Agent.initCell, Grid.modify, h1, h2, h3]
      · have h3 : ¬ (i, j) = c := fun e => h1 ((hc i j).1 e)
        simp [Agent.initCell, Grid.modify, h1, h3]

theorem init_frame (a : Agent) (w : World) :
    (a.init w).world = w ∧ (a.init w).x = 1 ∧ (a.init w).y = 1 := by
  obtain ⟨hw, hx, hy, _⟩ := fold_initCell allCells { a with world := w, x := 1, y := 1 }
  exact ⟨hw, hx, hy⟩

theorem init_visited (a : Agent) (w : World) (i j : Int) :
    (a.init w).visited i j = if w.inBounds i j = true then false else a.visited i j := by
  obtain ⟨_, _, _, hv, _⟩ := fold_initCell allCells { a with world := w, x := 1, y := 1 }
  unfold Agent.init
  dsimp only
  rw [hv]
  simp only [mem_allCells w]

theorem init_safe (a : Agent) (w : World) (i j : Int) :
    (a.init w).safe i j =
      if i = 1 ∧ j = 1 then true
      else if w.inBounds i j = true then false else a.safe i j := by
  obtain ⟨_, _, _, _, hs, _⟩ := fold_initCell allCells { a with world := w, x := 1, y := 1 }
  unfold Agent.init
  dsimp only
  simp only [Grid.set]
  rw [hs]
  simp only [mem_allCells w]

theorem init_knowledge (a : Agent) (w : World) (i j : Int) :
    (a.init w).knowledge i j =
      if i = 1 ∧ j = 1 then
        { safe := true, unknown := false, breeze := false, stench := false,
          glow := (a.knowledge i j).glow, p_pit := 0, p_wumpus := 0, p_paradise := 0 }
      else if w.inBounds i j = true then
        { safe := false, unknown := true, breeze := false, stench := false,
          glow := (a.knowledge i j).glow, p_pit := 0, p_wumpus := 0, p_paradise := 0 }
      else a.knowledge i j := by
  obtain ⟨_, _, _, _, _, hk⟩ := fold_initCell allCells { a with world := w, x := 1, y := 1 }
  unfold Agent.init
  dsimp only
  simp only [Grid.modify]
  rw [hk]
  simp only [mem_allCells w]
  by_cases h1 : i = 1 ∧ j = 1
  · have hb : w.inBounds 1 1 = true := rfl
    simp [h1, hb]
  · simp [h1]

/-! ### Sequences of calls -/

theorem makeMove_agent (a : Agent) (r : Nat) (junk : Nat → Int × Int) :
    (a.makeMove r junk).agent = (a.moveTo (a.chooseNextMove r junk)).updateKnowledge := rfl

/-- A property kept by `updateKnowledge` and by the position assignment of `makeMove`
holds after every sequence of calls. -/
theorem steps_invariant (P : Agent → Prop) (hu : ∀ s, P s → P s.updateKnowledge)
    (hm : ∀ s n, P s → P (s.moveTo n)) (l : List Step) (a : Agent) (h0 : P a) :
    P (a.steps l) := by
  unfold Agent.steps
  induction l generalizing a with
  | nil => exact h0
  | cons st l ih =>
    rw [List.foldl_cons]
    apply ih
    cases st with
    | update => exact hu a h0
    | move r junk =>
      show P (a.makeMove r junk).agent
      rw [makeMove_agent]
      exact hu _ (hm a _ h0)

theorem steps_world (a : Agent) (l : List Step) : (a.steps l).world = a.world :=
  steps_invariant (fun s => s.world = a.world)
    (fun s h => (updateKnowledge_frame s).1.trans h) (fun _ _ h => h) l a rfl

/-- C3 (silence invariant): in every state reached from `init` by any sequence of
`updateKnowledge` and `makeMove` calls, for every in-bounds visited coordinate whose
recorded breeze and stench flags are both false, every in-bounds orthogonal neighbour
has its safe-array entry true, `knowledge.safe` true and `knowledge.unknown` false.
The glow flag plays no role. -/
theorem silence_invariant (a0 : Agent) (w : World) (l : List Step) (i j : Int)
    (d : Int × Int) (hin : w.inBounds i j = true)
    (hv : ((a0.init w).steps l).visited i j = true)
    (hb : (((a0.init w).steps l).knowledge i j).breeze = false)
    (hs : (((a0.init w).steps l).knowledge i j).stench = false)
    (hd : d ∈ dirs) (hn : w.inBounds (i + d.1) (j + d.2) = true) :
    ((a0.init w).steps l).safe (i + d.1) (j + d.2) = true ∧
    (((a0.init w).steps l).knowledge (i + d.1) (j + d.2)).safe = true ∧
    (((a0.init w).steps l).knowledge (i + d.1) (j + d.2)).unknown = false := by
  have key := steps_invariant
    (fun s => s.world = w ∧ ∀ i j (d : Int × Int), w.inBounds i j = true →
      s.visited i j = true → (s.knowledge i j).breeze = false →
      (s.knowledge i j).stench = false → d ∈ dirs → w.inBounds (i + d.1) (j + d.2) = true →
      s.safe (i + d.1) (j + d.2) = true ∧ (s.knowledge (i + d.1) (j + d.2)).safe = true ∧
        (s.knowledge (i + d.1) (j + d.2)).unknown = false)
    ?_ ?_ l (a0.init w) ?_
  · exact key.2 i j d hin hv hb hs hd hn
  · rintro s ⟨hw, hI⟩
    refine ⟨(updateKnowledge_frame s).1.trans hw, ?_⟩
    intro i j d hin hv hb hs hd hn
    obtain ⟨f1, f2, f3, f4, _⟩ := updateKnowledge_flags s i j
    obtain ⟨g1, g2, _⟩ := updateKnowledge_flags s (i + d.1) (j + d.2)
    rw [updateKnowledge_safe, g1, g2]
    rw [updateKnowledge_visited] at hv
    rw [f3] at hb
    rw [f4] at hs
    by_cases hc : i = s.x ∧ j = s.y
    · rw [if_pos hc] at hb hs
      have hsil : s.silent = true := by
        unfold Agent.silent
        rw [hb, hs]
        rfl
      have hnb : s.isNbr (i + d.1) (j + d.2) = true := by
        rw [hc.1, hc.2]
        apply isNbr_of_dir s d hd
        rw [hw, ← hc.1, ← hc.2]
        exact hn
      simp [hsil, hnb]
    · rw [if_neg hc] at hv hb hs
      obtain ⟨p1, p2, p3⟩ := hI i j d hin hv hb hs hd hn
      simp [p1, p2, p3]
  · rintro s n ⟨hw, hI⟩
    exact ⟨hw, hI⟩
  · refine ⟨(init_frame a0 w).1, ?_⟩
    intro i j d hin hv
    rw [init_visited, if_pos hin] at hv
    exact absurd hv (by decide)

theorem chooseNextMove_prefers_safe_witness :
    (start (rawAgent layoutWorld false 0) layoutWorld).safe
      ((start (rawAgent layoutWorld false 0) layoutWorld).chooseNextMove 1 zeroJunk).1
      ((start (rawAgent layoutWorld false 0) layoutWorld).chooseNextMove 1 zeroJunk).2 = true ∧
    (start (rawAgent layoutWorld false 0) layoutWorld).visited
      ((start (rawAgent layoutWorld false 0) layoutWorld).chooseNextMove 1 zeroJunk).1
      ((start (rawAgent layoutWorld false 0) layoutWorld).chooseNextMove 1 zeroJunk).2 = false :=
  let h := chooseNextMove_prefers_safe (start (rawAgent layoutWorld false 0) layoutWorld) 1
    zeroJunk (by decide) ⟨(1, 0), by decide, by decide, by decide, by decide⟩
  ⟨h.2.2.1, h.2.2.2.1⟩

theorem silence_invariant_witness :
    (((rawAgent layoutWorld true 7).init layoutWorld).steps [Step.update]).safe 2 1 = true ∧
    ((((rawAgent layoutWorld true 7).init layoutWorld).steps [Step.update]).knowledge 2 1).safe
      = true ∧
    ((((rawAgent layoutWorld true 7).init layoutWorld).steps [Step.update]).knowledge 2 1).unknown
      = false :=
  silence_invariant (rawAgent layoutWorld true 7) layoutWorld [Step.update] 1 1 (1, 0)
    (by decide) (by decide) (by decide) (by decide) (by decide) (by decide)

theorem not_isNbr_self (s : Agent) : s.isNbr s.x s.y = false := by
  cases h : s.isNbr s.x s.y
  · rfl
  · obtain ⟨d, hd, _, h1, h2⟩ := (isNbr_iff s s.x s.y).1 h
    exact absurd (Prod.ext h1.symm h2.symm : (s.x + d.1, s.y + d.2) = (s.x, s.y))
      (dirs_ne d hd s.x s.y)

/-- C6, counterexample: in the 4x4 layout of the specification, after `init`, the first
`updateKnowledge` and two calls of `makeMove` the agent stands on (2,2); that cell was
UNKNOWN before the agent entered it and has `safe = false`, `unknown = false`
afterwards, so `query` labels it UNSAFE. -/
theorem unsafe_is_reachable :
    layoutWorld.inBounds 2 2 = true ∧
    (((rawAgent layoutWorld false 0).init layoutWorld).steps
      [Step.update, Step.move 0 zeroJunk]).query 2 2 =
      "Cell (2,2): UNKNOWN\n  Breeze: No\n  Stench: No\n    glow: No\n" ∧
    ((((rawAgent layoutWorld false 0).init layoutWorld).steps
      [Step.update, Step.move 0 zeroJunk, Step.move 1 zeroJunk]).knowledge 2 2).safe = false ∧
    ((((rawAgent layoutWorld false 0).init layoutWorld).steps
      [Step.update, Step.move 0 zeroJunk, Step.move 1 zeroJunk]).knowledge 2 2).unknown = false ∧
    (((rawAgent layoutWorld false 0).init layoutWorld).steps
      [Step.update, Step.move 0 zeroJunk, Step.move 1 zeroJunk]).query 2 2 =
      "Cell (2,2): UNSAFE\n  Breeze: No\n  Stench: No\n    glow: No\n" := by
  refine ⟨by decide, ?_, ?_, ?_, ?_⟩ <;> decide!

theorem moveTo_knowledge (a : Agent) (n : Int × Int) : (a.moveTo n).knowledge = a.knowledge := rfl

theorem steps_prob_le (a : Agent) (l : List Step) (h : Hazard) (i j : Int) :
    (a.knowledge i j).prob h ≤ ((a.steps l).knowledge i j).prob h :=
  steps_invariant (fun s => (a.knowledge i j).prob h ≤ (s.knowledge i j).prob h)
    (fun s hs => le_trans hs (updateKnowledge_prob_le s h i j)) (fun _ _ hs => hs) l a (le_refl _)

/-- C5 (probability watermark): over any sequence of `updateKnowledge` and `makeMove`
calls none of `p_pit`, `p_wumpus`, `p_paradise` of any cell decreases; and when an
update (run in state `a`, for `makeMove` the state after the position assignment)
perceives the percept of hazard `h` and has the cell `(i, j)` among its `count`
candidates, the field of `h` at `(i, j)` is at least `1 / count` after that update and
after every later sequence of calls. -/
theorem probability_watermark (a : Agent) (l : List Step) (h : Hazard) (i j : Int) :
    (a.knowledge i j).p_pit ≤ ((a.steps l).knowledge i j).p_pit ∧
    (a.knowledge i j).p_wumpus ≤ ((a.steps l).knowledge i j).p_wumpus ∧
    (a.knowledge i j).p_paradise ≤ ((a.steps l).knowledge i j).p_paradise ∧
    ((a.world.percepts a.x a.y).flag h = true → (i, j) ∈ a.observe.candidates →
      1 / (a.observe.candidates.length : ℚ) ≤ ((a.updateKnowledge).knowledge i j).prob h ∧
      1 / (a.observe.candidates.length : ℚ) ≤
        (((a.updateKnowledge).steps l).knowledge i j).prob h) := by
  refine ⟨steps_prob_le a l Hazard.pit i j, steps_prob_le a l Hazard.wumpus i j,
    steps_prob_le a l Hazard.paradise i j, fun hf hc => ?_⟩
  have h1 : 1 / (a.observe.candidates.length : ℚ) ≤ ((a.updateKnowledge).knowledge i j).prob h := by
    rw [updateKnowledge_prob, if_pos ⟨hf, hc⟩]
    exact le_max_right _ _
  exact ⟨h1, le_trans h1 (steps_prob_le _ l h i j)⟩

theorem probability_watermark_witness :
    1 / ((((rawAgent pitsWorld false 0).init pitsWorld).observe.candidates.length : ℕ) : ℚ) ≤
      ((((rawAgent pitsWorld false 0).init pitsWorld).updateKnowledge.steps
        [Step.move 0 zeroJunk]).knowledge 1 2).prob Hazard.pit :=
  ((probability_watermark ((rawAgent pitsWorld false 0).init pitsWorld) [Step.move 0 zeroJunk]
    Hazard.pit 1 2).2.2.2 (by decide) (by decide)).2

/-! ### The candidate list -/

theorem foldl_cond_append (P : Int × Int → Bool) (f : Int × Int → Int × Int)
    (ds : List (Int × Int)) (acc : List (Int × Int)) :
    ds.foldl (fun cs d => if P d = true then cs ++ [f d] else cs) acc =
      acc ++ (ds.filter P).map f := by
  induction ds generalizing acc with
  | nil => simp
  | cons d ds ih =>
    rw [List.foldl_cons, ih]
    cases hp : P d
    · simp [List.filter_cons, hp]
    · simp [List.filter_cons, hp]

theorem candidates_eq (a : Agent) :
    a.candidates = (dirs.filter (fun d => a.world.inBounds (a.x + d.1) (a.y + d.2) &&
      !a.visited (a.x + d.1) (a.y + d.2) && !a.safe (a.x + d.1) (a.y + d.2))).map
      (fun d => (a.x + d.1, a.y + d.2)) := by
  unfold Agent.candidates
  dsimp only
  rw [foldl_cond_append (fun d => a.world.inBounds (a.x + d.1) (a.y + d.2) &&
      !a.visited (a.x + d.1) (a.y + d.2) && !a.safe (a.x + d.1) (a.y + d.2))
    (fun d => (a.x + d.1, a.y + d.2))]
  rfl

theorem candidates_nodup (a : Agent) : a.candidates.Nodup := by
  rw [candidates_eq]
  apply List.Nodup.map
  · intro d e hde
    simp only [Prod.mk.injEq] at hde
    exact Prod.ext (by omega) (by omega)
  · exact List.Nodup.filter _ (by decide)

theorem mem_candidates (a : Agent) (c : Int × Int) :
    c ∈ a.candidates ↔ ∃ d ∈ dirs, c = (a.x + d.1, a.y + d.2) ∧
      a.world.inBounds (a.x + d.1) (a.y + d.2) = true ∧
      a.visited (a.x + d.1) (a.y + d.2) = false ∧ a.safe (a.x + d.1) (a.y + d.2) = false := by
  rw [candidates_eq, List.mem_map]
  constructor
  · rintro ⟨d, hd, he⟩
    rw [List.mem_filter] at hd
    obtain ⟨hd, hP⟩ := hd
    simp only [Bool.and_eq_true, Bool.not_eq_true'] at hP
    exact ⟨d, hd, he.symm, hP.1.1, hP.1.2, hP.2⟩
  · rintro ⟨d, hd, he, hb, hv, hs⟩
    refine ⟨d, List.mem_filter.2 ⟨hd, ?_⟩, he.symm⟩
    simp [hb, hv, hs]

theorem orthogonal_iff (x y : Int) (c : Int × Int) :
    orthogonal (x, y) c ↔ ∃ d ∈ dirs, c = (x + d.1, y + d.2) := by
  obtain ⟨i, j⟩ := c
  simp only [orthogonal, dirs, List.mem_cons, List.mem_singleton, List.not_mem_nil, or_false,
    exists_eq_or_imp, exists_eq_left, Prod.mk.injEq]
  omega

/-- When breeze or stench is perceived the silence rule does not run, and the candidate
list of the update holds exactly the cells of the specification's candidate set. -/
theorem observe_candidates_spec (a : Agent) (hs : a.silent = false) (c : Int × Int) :
    c ∈ a.observe.candidates ↔ c ∈ a.specCandidates := by
  obtain ⟨ow, ox, oy⟩ := observe_frame a
  rw [mem_candidates, ow, ox, oy]
  unfold Agent.specCandidates
  rw [Finset.mem_filter, Finset.mem_product, Finset.mem_Icc, Finset.mem_Icc, orthogonal_iff]
  have hvis : ∀ d ∈ dirs, a.observe.visited (a.x + d.1) (a.y + d.2) =
      a.visited (a.x + d.1) (a.y + d.2) := by
    intro d hd
    rw [observe_visited, if_neg]
    intro he
    exact dirs_ne d hd a.x a.y (Prod.ext he.1 he.2)
  have hsafe : ∀ i j, a.observe.safe i j = a.safe i j := by
    intro i j
    rw [observe_safe, hs]
    simp
  have hbd : ∀ i j : Int, a.world.inBounds i j = true ↔ (1 ≤ i ∧ i ≤ SIZE) ∧ (1 ≤ j ∧ j ≤ SIZE) := by
    intro i j
    simp only [World.inBounds, Bool.and_eq_true, decide_eq_true_eq, ge_iff_le]
    tauto
  constructor
  · rintro ⟨d, hd, he, hb, hv, hsf⟩
    rw [hvis d hd] at hv
    rw [hsafe] at hsf
    rw [he]
    exact ⟨(hbd _ _).1 hb, ⟨d, hd, rfl⟩, hv, hsf⟩
  · rintro ⟨hb, ⟨d, hd, he⟩, hv, hsf⟩
    rw [he] at hb hv hsf
    refine ⟨d, hd, he, (hbd _ _).2 hb, ?_, ?_⟩
    · rw [hvis d hd]; exact hv
    · rw [hsafe]; exact hsf

theorem observe_candidates_card (a : Agent) (hs : a.silent = false) :
    a.observe.candidates.length = a.specCandidates.card := by
  rw [← List.toFinset_card_of_nodup (candidates_nodup a.observe)]
  congr 1
  ext c
  rw [List.mem_toFinset]
  exact observe_candidates_spec a hs c

/-- C4 (candidate-set correctness): let the current coordinate be in bounds and let `C` be
the set of its in-bounds orthogonal neighbours that are not visited and not in the safe
array, `k` its size.  When the world reports a breeze there, after `updateKnowledge`
every cell of `C` has `p_pit = max (old p_pit) (1 / k)` and every other cell keeps its
`p_pit`; when it reports a stench the same holds for `p_wumpus`. -/
theorem spread_candidate_set (a : Agent) (i j : Int)
    (_hcur : a.world.inBounds a.x a.y = true) :
    ((a.world.percepts a.x a.y).breeze = true →
      ((a.updateKnowledge).knowledge i j).p_pit =
        if (i, j) ∈ a.specCandidates
        then max (a.knowledge i j).p_pit (1 / (a.specCandidates.card : ℚ))
        else (a.knowledge i j).p_pit) ∧
    ((a.world.percepts a.x a.y).stench = true →
      ((a.updateKnowledge).knowledge i j).p_wumpus =
        if (i, j) ∈ a.specCandidates
        then max (a.knowledge i j).p_wumpus (1 / (a.specCandidates.card : ℚ))
        else (a.knowledge i j).p_wumpus) := by
  constructor
  · intro hb
    have hs : a.silent = false := by
      unfold Agent.silent
      rw [hb]
      rfl
    have h := updateKnowledge_prob a Hazard.pit i j
    rw [observe_candidates_card a hs] at h
    simp only [Percept.flag, hb, true_and, observe_candidates_spec a hs] at h
    exact h
  · intro hb
    have hs : a.silent = false := by
      unfold Agent.silent
      rw [hb]
      simp
    have h := updateKnowledge_prob a Hazard.wumpus i j
    rw [observe_candidates_card a hs] at h
    simp only [Percept.flag, hb, true_and, observe_candidates_spec a hs] at h
    exact h

theorem spread_candidate_set_witness :
    ((((rawAgent nearWorld false 0).init nearWorld).updateKnowledge).knowledge 2 1).p_pit =
      (if ((2, 1) : Int × Int) ∈ ((rawAgent nearWorld false 0).init nearWorld).specCandidates
        then max ((((rawAgent nearWorld false 0).init nearWorld).knowledge 2 1).p_pit)
          (1 / (((rawAgent nearWorld false 0).init nearWorld).specCandidates.card : ℚ))
        else (((rawAgent nearWorld false 0).init nearWorld).knowledge 2 1).p_pit) ∧
    ((((rawAgent nearWorld false 0).init nearWorld).updateKnowledge).knowledge 2 1).p_wumpus =
      (if ((2, 1) : Int × Int) ∈ ((rawAgent nearWorld false 0).init nearWorld).specCandidates
        then max ((((rawAgent nearWorld false 0).init nearWorld).knowledge 2 1).p_wumpus)
          (1 / (((rawAgent nearWorld false 0).init nearWorld).specCandidates.card : ℚ))
        else (((rawAgent nearWorld false 0).init nearWorld).knowledge 2 1).p_wumpus) :=
  let h := spread_candidate_set ((rawAgent nearWorld false 0).init nearWorld) 2 1 (by decide)
  ⟨h.1 (by decide), h.2 (by decide)⟩

/-! ### Percepts -/

theorem fold_or_true (cond : Nat → Prop) [DecidablePred cond] (l : List Nat) (b : Bool) :
    l.foldl (fun b i => if cond i then true else b) b = true ↔ b = true ∨ ∃ i ∈ l, cond i := by
  induction l generalizing b with
  | nil => simp
  | cons i l ih =>
    rw [List.foldl_cons, ih, List.exists_mem_cons_iff]
    by_cases hc : cond i
    · simp [hc]
    · simp [hc]

theorem pitLoop_true (w : World) (nx ny : Int) (b : Bool) :
    w.pitLoop nx ny b = true ↔
      b = true ∨ ∃ k, k < w.pitCount ∧ nx = w.pitX k ∧ ny = w.pitY k := by
  unfold World.pitLoop
  rw [fold_or_true (fun i => nx = w.pitX i ∧ ny = w.pitY i)]
  simp only [List.mem_range]

theorem fold_perceptStep (w : World) (x y : Int) (ds : List (Int × Int)) (p : Percept) :
    ((ds.foldl (w.perceptStep x y) p).breeze = true ↔ p.breeze = true ∨
      ∃ d ∈ ds, w.inBounds (x + d.1) (y + d.2) = true ∧
        ∃ k, k < w.pitCount ∧ x + d.1 = w.pitX k ∧ y + d.2 = w.pitY k) ∧
    ((ds.foldl (w.perceptStep x y) p).stench = true ↔ p.stench = true ∨
      ∃ d ∈ ds, w.inBounds (x + d.1) (y + d.2) = true ∧
        (x + d.1 = w.wumpusX ∧ y + d.2 = w.wumpusY)) ∧
    ((ds.foldl (w.perceptStep x y) p).glow = true ↔ p.glow = true ∨
      ∃ d ∈ ds, w.inBounds (x + d.1) (y + d.2) = true ∧
        (x + d.1 = w.paradiseX ∧ y + d.2 = w.paradiseY)) := by
  induction ds generalizing p with
  | nil => simp
  | cons d ds ih =>
    obtain ⟨h1, h2, h3⟩ := ih (w.perceptStep x y p d)
    rw [List.foldl_cons, h1, h2, h3, List.exists_mem_cons_iff, List.exists_mem_cons_iff,
      List.exists_mem_cons_iff]
    unfold World.perceptStep
    dsimp only
    cases hb : w.inBounds (x + d.1) (y + d.2)
    · simp
    · simp only [if_true, true_and, pitLoop_true]
      refine ⟨?_, ?_, ?_⟩
      · rw [or_assoc]
      · by_cases hc : x + d.1 = w.wumpusX ∧ y + d.2 = w.wumpusY
        · simp [hc]
        · simp [hc]
      · by_cases hc : x + d.1 = w.paradiseX ∧ y + d.2 = w.paradiseY
        · simp [hc]
        · simp [hc]

theorem exists_dir_iff (x y : Int) (Q : Int × Int → Prop) :
    (∃ d ∈ dirs, Q (x + d.1, y + d.2)) ↔ ∃ c, orthogonal (x, y) c ∧ Q c := by
  constructor
  · rintro ⟨d, hd, hq⟩
    exact ⟨_, (orthogonal_iff x y _).2 ⟨d, hd, rfl⟩, hq⟩
  · rintro ⟨c, hc, hq⟩
    obtain ⟨d, hd, he⟩ := (orthogonal_iff x y c).1 hc
    exact ⟨d, hd, he ▸ hq⟩

theorem percepts_iff (w : World) (x y : Int) :
    ((w.percepts x y).breeze = true ↔ ∃ c, orthogonal (x, y) c ∧ w.inBounds c.1 c.2 = true ∧
      ∃ k, k < w.pitCount ∧ c = (w.pitX k, w.pitY k)) ∧
    ((w.percepts x y).stench = true ↔ ∃ c, orthogonal (x, y) c ∧ w.inBounds c.1 c.2 = true ∧
      c = (w.wumpusX, w.wumpusY)) ∧
    ((w.percepts x y).glow = true ↔ ∃ c, orthogonal (x, y) c ∧ w.inBounds c.1 c.2 = true ∧
      c = (w.paradiseX, w.paradiseY)) := by
  obtain ⟨h1, h2, h3⟩ := fold_perceptStep w x y dirs ⟨false, false, false⟩
  unfold World.percepts
  rw [h1, h2, h3]
  rw [← exists_dir_iff x y (fun c => w.inBounds c.1 c.2 = true ∧
      ∃ k, k < w.pitCount ∧ c = (w.pitX k, w.pitY k)),
    ← exists_dir_iff x y (fun c => w.inBounds c.1 c.2 = true ∧ c = (w.wumpusX, w.wumpusY)),
    ← exists_dir_iff x y (fun c => w.inBounds c.1 c.2 = true ∧ c = (w.paradiseX, w.paradiseY))]
  simp only [Prod.mk.injEq, Bool.false_eq_true, false_or]
  exact ⟨trivial, trivial, trivial⟩

/-- C9 (percept correctness): `World::percepts` reports a breeze exactly when some
in-bounds orthogonal neighbour is one of the first `pitCount` pit coordinates, a stench
exactly when some in-bounds orthogonal neighbour is the wumpus coordinate, and a glow
exactly when some in-bounds orthogonal neighbour is the paradise coordinate; with
`pitCount = 0` there is no breeze anywhere. -/
theorem percepts_correct (w : World) (x y : Int) :
    ((w.percepts x y).breeze = true ↔ ∃ c, orthogonal (x, y) c ∧ w.inBounds c.1 c.2 = true ∧
      ∃ k, k < w.pitCount ∧ c = (w.pitX k, w.pitY k)) ∧
    ((w.percepts x y).stench = true ↔ ∃ c, orthogonal (x, y) c ∧ w.inBounds c.1 c.2 = true ∧
      c = (w.wumpusX, w.wumpusY)) ∧
    ((w.percepts x y).glow = true ↔ ∃ c, orthogonal (x, y) c ∧ w.inBounds c.1 c.2 = true ∧
      c = (w.paradiseX, w.paradiseY)) ∧
    (({ w with pitCount := 0 } : World).percepts x y).breeze = false := by
  obtain ⟨h1, h2, h3⟩ := percepts_iff w x y
  refine ⟨h1, h2, h3, ?_⟩
  cases hb : (({ w with pitCount := 0 } : World).percepts x y).breeze
  · rfl
  · obtain ⟨c, _, _, k, hk, _⟩ := (percepts_iff { w with pitCount := 0 } x y).1.1 hb
    exact absurd hk (Nat.not_lt_zero k)

/-! ### Move selection in general -/

theorem scan_lt (a : Agent) (m : Moves) (junk : Nat → Int × Int) (dir : Nat)
    (h : dir < m.unknownMoves.length) : a.scan m junk dir < m.unknownMoves.length := by
  unfold Agent.scan
  have gen : ∀ (l : List Nat) (dir : Nat), (∀ i ∈ l, i < m.unknownMoves.length) →
      dir < m.unknownMoves.length →
      l.foldl (fun dir i =>
        if a.risk (readArr m.safeMoves junk i) < a.risk (readArr m.safeMoves junk dir) then i
        else dir) dir < m.unknownMoves.length := by
    intro l
    induction l with
    | nil => intro dir _ hd; exact hd
    | cons i l ih =>
      intro dir hl hd
      rw [List.foldl_cons]
      apply ih _ (fun k hk => hl k (List.mem_cons_of_mem _ hk))
      split
      · exact hl i (List.mem_cons_self _ _)
      · exact hd
  exact gen _ dir (fun i hi => List.mem_range.1 hi) h

/-- The four ways `chooseNextMove` produces its result. -/
theorem chooseNextMove_cases (a : Agent) (r : Nat) (junk : Nat → Int × Int) :
    a.chooseNextMove r junk ∈ a.classify.safeMoves ∨
    (a.classify.safeMoves = [] ∧ a.chooseNextMove r junk ∈ a.classify.unknownMoves) ∨
    (a.classify.safeMoves = [] ∧ a.classify.unknownMoves = [] ∧
      a.chooseNextMove r junk ∈ a.classify.visitedMoves) ∨
    (a.classify.safeMoves = [] ∧ a.classify.unknownMoves = [] ∧
      a.classify.visitedMoves = [] ∧ a.chooseNextMove r junk = (a.x, a.y)) := by
  unfold Agent.chooseNextMove
  dsimp only
  by_cases h1 : a.classify.safeMoves.length > 0
  · rw [if_pos h1]
    exact Or.inl (readArr_mem _ _ _ (Nat.mod_lt _ h1))
  · rw [if_neg h1]
    have e1 : a.classify.safeMoves = [] := List.length_eq_zero.1 (by omega)
    by_cases h2 : a.classify.unknownMoves.length > 0
    · rw [if_pos h2]
      exact Or.inr (Or.inl ⟨e1, getD_mem _ _ _ (scan_lt a _ junk _ (Nat.mod_lt _ h2))⟩)
    · rw [if_neg h2]
      have e2 : a.classify.unknownMoves = [] := List.length_eq_zero.1 (by omega)
      by_cases h3 : a.classify.visitedMoves.length > 0
      · rw [if_pos h3]
        exact Or.inr (Or.inr (Or.inl ⟨e1, e2, getD_mem _ _ _ (Nat.mod_lt _ h3)⟩))
      · rw [if_neg h3]
        have e3 : a.classify.visitedMoves = [] := List.length_eq_zero.1 (by omega)
        exact Or.inr (Or.inr (Or.inr ⟨e1, e2, e3, rfl⟩))

/-! ### Terminal detection -/

theorem fold_pitCheck (w : World) (x y : Int) (l : List Nat) (st : Bool × List String) :
    (l.foldl (w.pitCheck x y) st).1 = true ↔
      st.1 = true ∨ ∃ k ∈ l, x = w.pitX k ∧ y = w.pitY k := by
  induction l generalizing st with
  | nil => simp
  | cons i l ih =>
    rw [List.foldl_cons, ih, List.exists_mem_cons_iff]
    unfold World.pitCheck
    cases h1 : st.1
    · by_cases hc : x = w.pitX i ∧ y = w.pitY i
      · simp [hc]
      · simp [hc, h1]
    · simp [h1]

theorem makeMove_finish (a : Agent) (r : Nat) (junk : Nat → Int × Int) :
    (a.makeMove r junk).finish = true ↔
      (a.chooseNextMove r junk = (a.x, a.y) ∨
      (∃ k, k < a.world.pitCount ∧
        a.chooseNextMove r junk = (a.world.pitX k, a.world.pitY k)) ∨
      a.chooseNextMove r junk = (a.world.wumpusX, a.world.wumpusY) ∨
      a.chooseNextMove r junk = (a.world.paradiseX, a.world.paradiseY)) := by
  unfold Agent.makeMove
  dsimp only
  generalize a.chooseNextMove r junk = n
  obtain ⟨nx, ny⟩ := n
  simp only [Agent.moveTo, Prod.mk.injEq]
  by_cases hp : nx = a.world.paradiseX ∧ ny = a.world.paradiseY
  · simp [hp]
  · rw [if_neg hp]
    by_cases hw : nx = a.world.wumpusX ∧ ny = a.world.wumpusY
    · simp [hw]
    · rw [if_neg hw, fold_pitCheck]
      simp only [List.mem_range, hp, hw, or_false]
      by_cases hc : nx = a.x ∧ ny = a.y
      · simp [hc]
      · simp [hc]

theorem makeMove_position (a : Agent) (r : Nat) (junk : Nat → Int × Int) :
    (a.makeMove r junk).agent.world = a.world ∧
    ((a.makeMove r junk).agent.x, (a.makeMove r junk).agent.y) = a.chooseNextMove r junk := by
  rw [makeMove_agent]
  obtain ⟨hw, hx, hy⟩ := updateKnowledge_frame (a.moveTo (a.chooseNextMove r junk))
  rw [hw, hx, hy]
  exact ⟨rfl, rfl⟩

/-- The state after `init` and the first `updateKnowledge` when the start perceives a
breeze: nothing but the start is in the safe array and every other cell is unknown. -/
theorem start_breeze (a0 : Agent) (w : World) (hb : (w.percepts 1 1).breeze = true) :
    (start a0 w).world = w ∧ (start a0 w).x = 1 ∧ (start a0 w).y = 1 ∧
    ∀ i j, w.inBounds i j = true → ¬ (i = 1 ∧ j = 1) →
      (start a0 w).safe i j = false ∧ ((start a0 w).knowledge i j).unknown = true := by
  obtain ⟨iw, ix, iy⟩ := init_frame a0 w
  obtain ⟨uw, ux, uy⟩ := updateKnowledge_frame (a0.init w)
  have hs : (a0.init w).silent = false := by
    unfold Agent.silent
    rw [iw, ix, iy, hb]
    rfl
  unfold start
  refine ⟨uw.trans iw, ux.trans ix, uy.trans iy, fun i j hin hne => ?_⟩
  rw [updateKnowledge_safe, (updateKnowledge_flags _ i j).2.1, hs, init_safe, init_knowledge,
    if_neg hne, if_neg hne, if_pos hin, if_pos hin, ix, iy]
  simp [hne]

/-- Terminal detection for the value computed by `makeMove`, which is the result of the
call whenever the reads of its scan stay inside the array: it is true exactly when the
chosen coordinate is the current one, or the coordinate moved to is one of the first
`pitCount` pits, the wumpus coordinate or the paradise coordinate; and when every
in-bounds orthogonal neighbour of the start is a pit, the value for the first move after
`init` and the first `updateKnowledge` is true, on a pit. -/
theorem makeMove_terminal_value (a : Agent) (r : Nat) (junk : Nat → Int × Int) :
    ((a.makeMove r junk).finish = true ↔
      (a.chooseNextMove r junk = (a.x, a.y) ∨
      (∃ k, k < a.world.pitCount ∧
        ((a.makeMove r junk).agent.x, (a.makeMove r junk).agent.y) =
          (a.world.pitX k, a.world.pitY k)) ∨
      ((a.makeMove r junk).agent.x, (a.makeMove r junk).agent.y) =
        (a.world.wumpusX, a.world.wumpusY) ∨
      ((a.makeMove r junk).agent.x, (a.makeMove r junk).agent.y) =
        (a.world.paradiseX, a.world.paradiseY))) ∧
    (∀ (a0 : Agent) (w : World),
      (∀ c : Int × Int, orthogonal (1, 1) c → w.inBounds c.1 c.2 = true →
        ∃ k, k < w.pitCount ∧ c = (w.pitX k, w.pitY k)) →
      ((start a0 w).makeMove r junk).finish = true ∧
      ∃ k, k < w.pitCount ∧
        (((start a0 w).makeMove r junk).agent.x, ((start a0 w).makeMove r junk).agent.y) =
          (w.pitX k, w.pitY k)) := by
  constructor
  · rw [(makeMove_position a r junk).2]
    exact makeMove_finish a r junk
  · intro a0 w hpits
    have hb : (w.percepts 1 1).breeze = true := by
      rw [(percepts_iff w 1 1).1]
      exact ⟨(2, 1), by decide, rfl, hpits (2, 1) (by decide) rfl⟩
    obtain ⟨sw, sx, sy, hcells⟩ := start_breeze a0 w hb
    have hne : ∀ d ∈ dirs, ¬ ((1 : Int) + d.1 = 1 ∧ (1 : Int) + d.2 = 1) := by
      intro d hd he
      exact dirs_ne d hd 1 1 (Prod.ext he.1 he.2)
    have hsafe : (start a0 w).classify.safeMoves = [] := by
      rw [List.eq_nil_iff_forall_not_mem]
      intro c hc
      obtain ⟨d, hd, hP, _⟩ := (mem_safeMoves _ c).1 hc
      simp only [Agent.isSafeMove, sw, sx, sy, Bool.and_eq_true] at hP
      rw [(hcells _ _ hP.1 (hne d hd)).1] at hP
      exact Bool.noConfusion hP.2.1
    have hunk : ((2, 1) : Int × Int) ∈ (start a0 w).classify.unknownMoves := by
      rw [mem_unknownMoves]
      refine ⟨(1, 0), by decide, ?_, by rw [sx, sy]; rfl⟩
      have h21 := hcells 2 1 rfl (by decide)
      simp only [Agent.isUnknownMove, sw, sx, sy]
      have e1 : ((1 : Int) + ((1, 0) : Int × Int).1) = 2 := rfl
      have e2 : ((1 : Int) + ((1, 0) : Int × Int).2) = 1 := rfl
      rw [e1, e2, h21.1, h21.2]
      rfl
    have hmem : (start a0 w).chooseNextMove r junk ∈ (start a0 w).classify.unknownMoves := by
      rcases chooseNextMove_cases (start a0 w) r junk with h | ⟨_, h⟩ | ⟨_, h, _⟩ | ⟨_, h, _⟩
      · rw [hsafe] at h
        exact absurd h (List.not_mem_nil _)
      · exact h
      · rw [h] at hunk
        exact absurd hunk (List.not_mem_nil _)
      · rw [h] at hunk
        exact absurd hunk (List.not_mem_nil _)
    obtain ⟨d, hd, hP, he⟩ := (mem_unknownMoves _ _).1 hmem
    simp only [Agent.isUnknownMove, sw, sx, sy, Bool.and_eq_true] at hP
    rw [sx, sy] at he
    have hpit : ∃ k, k < w.pitCount ∧
        (start a0 w).chooseNextMove r junk = (w.pitX k, w.pitY k) := by
      rw [he]
      exact hpits _ ((orthogonal_iff 1 1 _).2 ⟨d, hd, rfl⟩) hP.1
    refine ⟨?_, ?_⟩
    · rw [makeMove_finish, sw]
      exact Or.inr (Or.inl hpit)
    · rw [(makeMove_position _ r junk).2]
      exact hpit

/-! ### Places where the code departs from its documentation -/

/-- The loop of `run` never changes its counter `i`. -/
theorem runLoop_counter (steps : Int) (rnd : Nat → Nat) (junk : Nat → Nat → Int × Int)
    (fuel : Nat) (s : RunState) : (Agent.runLoop steps rnd junk fuel s).i = s.i := by
  induction fuel generalizing s with
  | zero => rfl
  | succ n ih =>
    unfold Agent.runLoop
    split
    · rw [ih]
    · rfl

/-- C2: in `cornerWorld` with the random values `cornerRnd`, `run(10)` has made eleven
calls of `makeMove` after eleven rounds of its loop and is still running: the loop
counter `i` is never incremented, so the step limit does not stop the loop. -/
theorem run_ignores_step_limit :
    (Agent.runLoop 10 cornerRnd (fun _ => zeroJunk) 11
      (start (rawAgent cornerWorld false 0) cornerWorld).runEntry).calls = 11 ∧
    (Agent.runLoop 10 cornerRnd (fun _ => zeroJunk) 11
      (start (rawAgent cornerWorld false 0) cornerWorld).runEntry).finish = false ∧
    (Agent.runLoop 10 cornerRnd (fun _ => zeroJunk) 11
      (start (rawAgent cornerWorld false 0) cornerWorld).runEntry).i = 0 := by
  refine ⟨?_, ?_, ?_⟩ <;> decide!

/-- C7: immediately after `init` the start coordinate is not marked visited, whatever
the object held before and whatever the world is. -/
theorem init_leaves_start_unvisited (a : Agent) (w : World) :
    (a.init w).visited 1 1 = false := by
  rw [init_visited]
  rfl

/-- C8: `init` does not assign the `glow` field.  In the 4x4 layout of the specification,
started from an object whose memory held `true` flags, after `init` and the first
`updateKnowledge` the never-visited cell (1,4) has `glow = true` and `query` prints
Yes for it. -/
theorem unvisited_glow_not_initialised :
    (start (rawAgent layoutWorld true 0) layoutWorld).visited 1 4 = false ∧
    ((start (rawAgent layoutWorld true 0) layoutWorld).knowledge 1 4).glow = true ∧
    (start (rawAgent layoutWorld true 0) layoutWorld).query 1 4 =
      "Cell (1,4): UNKNOWN\n  Breeze: No\n  Stench: No\n    glow: Yes\n" := by
  refine ⟨?_, ?_, ?_⟩ <;> decide

/-! ### The unknown branch of `chooseNextMove` and the world loader -/

/-- C11: in `riskWorld` (pit (1,2), wumpus (1,3)), after `init`, the first
`updateKnowledge` and the moves to (2,1) and (2,2), the agent at (2,2) has no
safe-unvisited neighbour and the unknown list (3,2), (1,2), (2,3) with risks 1/3, 1/2,
1/3.  With random value 1 and equal stale entries in `safeMoves`, `chooseNextMove`
returns (1,2), whose risk is not minimal: the scan reads the risks through `safeMoves`,
not through `unknownMoves`. -/
theorem unknown_move_not_lowest_risk :
    (((rawAgent riskWorld false 0).init riskWorld).steps
      [Step.update, Step.move 0 zeroJunk, Step.move 1 zeroJunk]).classify.safeMoves = [] ∧
    (((rawAgent riskWorld false 0).init riskWorld).steps
      [Step.update, Step.move 0 zeroJunk, Step.move 1 zeroJunk]).classify.unknownMoves =
      [(3, 2), (1, 2), (2, 3)] ∧
    (((rawAgent riskWorld false 0).init riskWorld).steps
      [Step.update, Step.move 0 zeroJunk, Step.move 1 zeroJunk]).chooseNextMove 1 zeroJunk =
      (1, 2) ∧
    (((rawAgent riskWorld false 0).init riskWorld).steps
      [Step.update, Step.move 0 zeroJunk, Step.move 1 zeroJunk]).risk (3, 2) <
    (((rawAgent riskWorld false 0).init riskWorld).steps
      [Step.update, Step.move 0 zeroJunk, Step.move 1 zeroJunk]).risk (1, 2) := by
  refine ⟨?_, ?_, ?_, ?_⟩ <;> decide!

/-- A line `pit x y` with arbitrary characters in the coordinate places goes to the
wumpus branch of the loader. -/
theorem loadLine_pit_line (w : World) (cx cy : Char) :
    w.loadLine (String.mk ['p', 'i', 't', ' ', cx, ' ', cy]) =
      { w with wumpusX := digitOf cx, wumpusY := digitOf cy } := rfl

/-- A line `wumpus x y` with arbitrary characters in the coordinate places goes to the
pit branch of the loader. -/
theorem loadLine_wumpus_line (w : World) (cx cy : Char) :
    w.loadLine (String.mk ['w', 'u', 'm', 'p', 'u', 's', ' ', cx, ' ', cy]) =
      { w with
        pitX := fun i => if i = w.pitCount then digitOf cx else w.pitX i
        pitY := fun i => if i = w.pitCount then digitOf cy else w.pitY i
        pitCount := w.pitCount + 1 } := rfl

/-- C12: a line `pit x y` leaves the pit list as it is and sets the wumpus coordinate to
`(x, y)`; a line `wumpus x y` appends `(x, y)` to the pit list and leaves the wumpus
coordinate as it is: the two directives are stored in each other's place.  Shown for
arbitrary characters in the coordinate places and for the lines `pit 2 3` and
`wumpus 3 2` of the comment on `load`. -/
theorem load_swaps_pit_and_wumpus (w : World) (cx cy : Char) :
    (w.loadLine (String.mk ['p', 'i', 't', ' ', cx, ' ', cy])).pitCount = w.pitCount ∧
    (w.loadLine (String.mk ['p', 'i', 't', ' ', cx, ' ', cy])).wumpusX = digitOf cx ∧
    (w.loadLine (String.mk ['p', 'i', 't', ' ', cx, ' ', cy])).wumpusY = digitOf cy ∧
    (w.loadLine (String.mk ['w', 'u', 'm', 'p', 'u', 's', ' ', cx, ' ', cy])).pitCount =
      w.pitCount + 1 ∧
    (w.loadLine (String.mk ['w', 'u', 'm', 'p', 'u', 's', ' ', cx, ' ', cy])).wumpusX =
      w.wumpusX ∧
    (w.loadLine (String.mk ['w', 'u', 'm', 'p', 'u', 's', ' ', cx, ' ', cy])).wumpusY =
      w.wumpusY ∧
    (w.loadLine "pit 2 3").pitCount = w.pitCount ∧
    (w.loadLine "pit 2 3").wumpusX = 2 ∧
    (w.loadLine "pit 2 3").wumpusY = 3 ∧
    (w.loadLine "wumpus 3 2").pitCount = w.pitCount + 1 ∧
    (w.loadLine "wumpus 3 2").pitX w.pitCount = 3 ∧
    (w.loadLine "wumpus 3 2").pitY w.pitCount = 2 ∧
    (w.loadLine "wumpus 3 2").wumpusX = w.wumpusX ∧
    (w.loadLine "wumpus 3 2").wumpusY = w.wumpusY := by
  refine ⟨rfl, rfl, rfl, rfl, rfl, rfl, rfl, rfl, rfl, rfl, ?_, ?_, rfl, rfl⟩
  · show (if w.pitCount = w.pitCount then (3 : Int) else w.pitX w.pitCount) = 3
    rw [if_pos rfl]
  · show (if w.pitCount = w.pitCount then (2 : Int) else w.pitY w.pitCount) = 2
    rw [if_pos rfl]

/-! ### Console text of `makeMove` -/

theorem pitAt_iff (w : World) (x y : Int) :
    w.pitAt x y = true ↔ ∃ k, k < w.pitCount ∧ (x, y) = (w.pitX k, w.pitY k) := by
  unfold World.pitAt
  rw [List.any_eq_true]
  simp only [List.mem_range, decide_eq_true_eq, Prod.mk.injEq]

theorem fold_pitCheck_out (w : World) (x y : Int) (l : List Nat) (st : Bool × List String) :
    (l.foldl (w.pitCheck x y) st).2 =
      st.2 ++ (if (!st.1 && l.any (fun k => decide (x = w.pitX k ∧ y = w.pitY k))) = true
        then ["Fell into a pit!\n"] else []) := by
  induction l generalizing st with
  | nil => simp
  | cons i l ih =>
    rw [List.foldl_cons, ih, List.any_cons]
    unfold World.pitCheck
    cases h1 : st.1
    · by_cases hc : x = w.pitX i ∧ y = w.pitY i
      · simp [hc]
      · simp [hc, h1]
    · simp [h1]

/-- The console text of one `makeMove` call. -/
theorem makeMove_out (a : Agent) (r : Nat) (junk : Nat → Int × Int) :
    (a.makeMove r junk).out =
      (if a.chooseNextMove r junk = (a.x, a.y) then ["No safe or unknown moves left.\n"]
        else []) ++
      [movedMsg (a.chooseNextMove r junk).1 (a.chooseNextMove r junk).2] ++
      (if ¬ a.chooseNextMove r junk = (a.x, a.y) ∧
          a.world.pitAt (a.chooseNextMove r junk).1 (a.chooseNextMove r junk).2 = true
        then ["Fell into a pit!\n"] else []) ++
      (if a.chooseNextMove r junk = (a.world.wumpusX, a.world.wumpusY)
        then ["Eaten by the Wumpus!\n"] else []) ++
      (if a.chooseNextMove r junk = (a.world.paradiseX, a.world.paradiseY)
        then ["You made it to paradise!\n"] else []) := by
  have e4 : ∀ (c : Prop) [Decidable c] (s : Bool × List String) (m : List String),
      (if c then (true, s.2 ++ m) else s).2 = s.2 ++ (if c then m else []) := by
    intro c _ s m
    split <;> simp
  unfold Agent.makeMove
  dsimp only
  generalize a.chooseNextMove r junk = n
  obtain ⟨nx, ny⟩ := n
  rw [e4, e4, fold_pitCheck_out]
  simp only [Agent.moveTo, Prod.mk.injEq, World.pitAt, movedMsg]
  by_cases hc : nx = a.x ∧ ny = a.y
  · have hn : ¬ (¬ (nx = a.x ∧ ny = a.y) ∧
        ((List.range a.world.pitCount).any
          (fun k => decide (nx = a.world.pitX k ∧ ny = a.world.pitY k))) = true) :=
      fun h => h.1 hc
    rw [if_pos hc, if_pos hc, if_neg hn]
    simp
  · rw [if_neg hc, if_neg hc]
    by_cases hpit : ((List.range a.world.pitCount).any
      (fun k => decide (nx = a.world.pitX k ∧ ny = a.world.pitY k))) = true
    · have h1 : (!(false, ([] : List String)).1 && (List.range a.world.pitCount).any
          (fun k => decide (nx = a.world.pitX k ∧ ny = a.world.pitY k))) = true := by
        rw [hpit]
        rfl
      have h2 : ¬ (nx = a.x ∧ ny = a.y) ∧ ((List.range a.world.pitCount).any
          (fun k => decide (nx = a.world.pitX k ∧ ny = a.world.pitY k))) = true := ⟨hc, hpit⟩
      rw [if_pos h1, if_pos h2]
    · have h1 : ¬ (!(false, ([] : List String)).1 && (List.range a.world.pitCount).any
          (fun k => decide (nx = a.world.pitX k ∧ ny = a.world.pitY k))) = true := by
        intro h
        rw [Bool.and_eq_true] at h
        exact hpit h.2
      have h2 : ¬ (¬ (nx = a.x ∧ ny = a.y) ∧ ((List.range a.world.pitCount).any
          (fun k => decide (nx = a.world.pitX k ∧ ny = a.world.pitY k))) = true) :=
        fun h => hpit h.2
      rw [if_neg h1, if_neg h2]

theorem movedMsg_head (x y : Int) : (movedMsg x y).data.head? = some 'M' := by
  unfold movedMsg
  simp only [String.data_append]
  rfl

theorem movedMsg_ne (x y : Int) (s : String) (h : s.data.head? ≠ some 'M') :
    movedMsg x y ≠ s := by
  intro e
  apply h
  rw [← e]
  exact movedMsg_head x y

theorem mem_ite_singleton (c : Prop) [Decidable c] (x m : String) :
    x ∈ (if c then [m] else []) ↔ c ∧ x = m := by
  split <;> simp [*]

/-- C13, counterexample: in `clashWorld` the cell (2,1) is both a pit and the wumpus
cell; the first `makeMove` after `init` and the first `updateKnowledge` moves there and
reports two terminal outcomes, the pit and the wumpus. -/
theorem two_outcomes_reported :
    ((start (rawAgent clashWorld false 0) clashWorld).makeMove 0 zeroJunk).out =
      ["Moved to (2,1)\n", "Fell into a pit!\n", "Eaten by the Wumpus!\n"] := by
  decide!

/-- C13, amended: `makeMove` reports the three terminal outcomes independently of each
other.  Its console text is, in this order: the stuck message when the chosen coordinate
is the current one; the line naming the coordinate moved to; the pit message, once, when
the move is not stuck and that coordinate is one of the first `pitCount` pits; the
wumpus message when it is the wumpus coordinate; the paradise message when it is the
paradise coordinate.  So each message is reported exactly when its own condition holds,
whatever else is reported. -/
theorem terminal_outcomes_reported (a : Agent) (r : Nat) (junk : Nat → Int × Int) :
    (a.makeMove r junk).out =
      (if a.chooseNextMove r junk = (a.x, a.y) then ["No safe or unknown moves left.\n"]
        else []) ++
      [movedMsg (a.chooseNextMove r junk).1 (a.chooseNextMove r junk).2] ++
      (if ¬ a.chooseNextMove r junk = (a.x, a.y) ∧
          a.world.pitAt (a.chooseNextMove r junk).1 (a.chooseNextMove r junk).2 = true
        then ["Fell into a pit!\n"] else []) ++
      (if a.chooseNextMove r junk = (a.world.wumpusX, a.world.wumpusY)
        then ["Eaten by the Wumpus!\n"] else []) ++
      (if a.chooseNextMove r junk = (a.world.paradiseX, a.world.paradiseY)
        then ["You made it to paradise!\n"] else []) ∧
    ("Fell into a pit!\n" ∈ (a.makeMove r junk).out ↔
      ¬ a.chooseNextMove r junk = (a.x, a.y) ∧
        ∃ k, k < a.world.pitCount ∧
          a.chooseNextMove r junk = (a.world.pitX k, a.world.pitY k)) ∧
    ("Eaten by the Wumpus!\n" ∈ (a.makeMove r junk).out ↔
      a.chooseNextMove r junk = (a.world.wumpusX, a.world.wumpusY)) ∧
    ("You made it to paradise!\n" ∈ (a.makeMove r junk).out ↔
      a.chooseNextMove r junk = (a.world.paradiseX, a.world.paradiseY)) := by
  have hm1 := movedMsg_ne (a.chooseNextMove r junk).1 (a.chooseNextMove r junk).2
    "Fell into a pit!\n" (by decide)
  have hm2 := movedMsg_ne (a.chooseNextMove r junk).1 (a.chooseNextMove r junk).2
    "Eaten by the Wumpus!\n" (by decide)
  have hm3 := movedMsg_ne (a.chooseNextMove r junk).1 (a.chooseNextMove r junk).2
    "You made it to paradise!\n" (by decide)
  have hp := pitAt_iff a.world (a.chooseNextMove r junk).1 (a.chooseNextMove r junk).2
  refine ⟨makeMove_out a r junk, ?_, ?_, ?_⟩
  · rw [makeMove_out]
    simp only [List.mem_append, List.mem_singleton, mem_ite_singleton, hp]
    constructor
    · rintro ((((h | h) | h) | h) | h)
      · exact absurd h.2 (by decide)
      · exact absurd h.symm hm1
      · exact h.1
      · exact absurd h.2 (by decide)
      · exact absurd h.2 (by decide)
    · intro h
      exact Or.inl (Or.inl (Or.inr ⟨h, trivial⟩))
  · rw [makeMove_out]
    simp only [List.mem_append, List.mem_singleton, mem_ite_singleton]
    constructor
    · rintro ((((h | h) | h) | h) | h)
      · exact absurd h.2 (by decide)
      · exact absurd h.symm hm2
      · exact absurd h.2 (by decide)
      · exact h.1
      · exact absurd h.2 (by decide)
    · intro h
      exact Or.inl (Or.inr ⟨h, trivial⟩)
  · rw [makeMove_out]
    simp only [List.mem_append, List.mem_singleton, mem_ite_singleton]
    constructor
    · rintro ((((h | h) | h) | h) | h)
      · exact absurd h.2 (by decide)
      · exact absurd h.symm hm3
      · exact absurd h.2 (by decide)
      · exact absurd h.2 (by decide)
      · exact h.1
    · intro h
      exact Or.inr ⟨h, trivial⟩

/-! ### Effects of one call -/

/-- C14 (knowledge is updated on every move): after `makeMove`, whatever it returns, the
agent stands on the chosen coordinate, that coordinate is marked visited, and its
recorded breeze, stench and glow flags are the ones `World::percepts` gives there. -/
theorem knowledge_updated_on_every_move (a : Agent) (r : Nat) (junk : Nat → Int × Int) :
    ((a.makeMove r junk).agent.x, (a.makeMove r junk).agent.y) = a.chooseNextMove r junk ∧
    (a.makeMove r junk).agent.visited (a.makeMove r junk).agent.x (a.makeMove r junk).agent.y
      = true ∧
    ((a.makeMove r junk).agent.knowledge (a.makeMove r junk).agent.x
      (a.makeMove r junk).agent.y).breeze =
      (a.world.percepts (a.makeMove r junk).agent.x (a.makeMove r junk).agent.y).breeze ∧
    ((a.makeMove r junk).agent.knowledge (a.makeMove r junk).agent.x
      (a.makeMove r junk).agent.y).stench =
      (a.world.percepts (a.makeMove r junk).agent.x (a.makeMove r junk).agent.y).stench ∧
    ((a.makeMove r junk).agent.knowledge (a.makeMove r junk).agent.x
      (a.makeMove r junk).agent.y).glow =
      (a.world.percepts (a.makeMove r junk).agent.x (a.makeMove r junk).agent.y).glow := by
  rw [makeMove_agent]
  obtain ⟨_, hx, hy⟩ := updateKnowledge_frame (a.moveTo (a.chooseNextMove r junk))
  obtain ⟨_, _, f3, f4, f5⟩ := updateKnowledge_flags (a.moveTo (a.chooseNextMove r junk))
    (a.moveTo (a.chooseNextMove r junk)).x (a.moveTo (a.chooseNextMove r junk)).y
  rw [hx, hy, updateKnowledge_visited, f3, f4, f5]
  simp only [and_self, if_true]
  exact ⟨rfl, trivial, rfl, rfl, rfl⟩

/-- C16 (monotone visited-set and safe-set): over one `updateKnowledge` or `makeMove`
call a coordinate that is visited stays visited and a coordinate in the safe array stays
in it. -/
theorem visited_safe_monotone (a : Agent) (st : Step) (i j : Int) :
    (a.visited i j = true → (a.step st).visited i j = true) ∧
    (a.safe i j = true → (a.step st).safe i j = true) := by
  have hu : ∀ s : Agent, (s.visited i j = true → s.updateKnowledge.visited i j = true) ∧
      (s.safe i j = true → s.updateKnowledge.safe i j = true) := by
    intro s
    constructor
    · intro h
      rw [updateKnowledge_visited]
      split
      · rfl
      · exact h
    · intro h
      rw [updateKnowledge_safe, h]
      rfl
  cases st with
  | update => exact hu a
  | move r junk =>
    show (a.visited i j = true → (a.makeMove r junk).agent.visited i j = true) ∧
      (a.safe i j = true → (a.makeMove r junk).agent.safe i j = true)
    rw [makeMove_agent]
    exact hu (a.moveTo (a.chooseNextMove r junk))

theorem visited_safe_monotone_witness :
    ((start (rawAgent layoutWorld false 0) layoutWorld).step (Step.move 0 zeroJunk)).visited 1 1
      = true ∧
    ((start (rawAgent layoutWorld false 0) layoutWorld).step (Step.move 0 zeroJunk)).safe 1 1
      = true :=
  let h := visited_safe_monotone (start (rawAgent layoutWorld false 0) layoutWorld)
    (Step.move 0 zeroJunk) 1 1
  ⟨h.1 (by decide), h.2 (by decide)⟩

/-! ### Range of the probability fields -/

theorem candidates_length_le (a : Agent) : a.candidates.length ≤ 4 := by
  rw [candidates_eq, List.length_map]
  exact le_trans (List.length_filter_le _ _) (by decide)

theorem inv_count_mem (n : Nat) (h1 : 0 < n) (h4 : n ≤ 4) :
    (1 / (n : ℚ) = 0 ∨ 1 / (n : ℚ) = 1 / 4 ∨ 1 / (n : ℚ) = 1 / 3 ∨ 1 / (n : ℚ) = 1 / 2 ∨
      1 / (n : ℚ) = 1) := by
  have h : n = 1 ∨ n = 2 ∨ n = 3 ∨ n = 4 := by omega
  rcases h with h | h | h | h <;> subst h <;> norm_num

theorem updateKnowledge_prob_mem (a : Agent) (h : Hazard) (i j : Int)
    (hold : (a.knowledge i j).prob h = 0 ∨ (a.knowledge i j).prob h = 1 / 4 ∨
      (a.knowledge i j).prob h = 1 / 3 ∨ (a.knowledge i j).prob h = 1 / 2 ∨
      (a.knowledge i j).prob h = 1) :
    ((a.updateKnowledge).knowledge i j).prob h = 0 ∨
    ((a.updateKnowledge).knowledge i j).prob h = 1 / 4 ∨
    ((a.updateKnowledge).knowledge i j).prob h = 1 / 3 ∨
    ((a.updateKnowledge).knowledge i j).prob h = 1 / 2 ∨
    ((a.updateKnowledge).knowledge i j).prob h = 1 := by
  rw [updateKnowledge_prob]
  split
  · rename_i hc
    have hpos : 0 < a.observe.candidates.length := List.length_pos_of_mem hc.2
    have hnew := inv_count_mem _ hpos (candidates_length_le a.observe)
    rcases max_choice ((a.knowledge i j).prob h) (1 / (a.observe.candidates.length : ℚ))
      with hm | hm
    · rw [hm]; exact hold
    · rw [hm]; exact hnew
  · exact hold

/-- C15 (probability range): in every state reached from `init` by any sequence of
`updateKnowledge` and `makeMove` calls, each of `p_pit`, `p_wumpus`, `p_paradise` of
every in-bounds cell (the field `prob h`) is one of 0, 1/4, 1/3, 1/2, 1, hence in [0,1]
(`1.0 / count` taken as an exact rational). -/
theorem probability_range (a0 : Agent) (w : World) (l : List Step) (h : Hazard) (i j : Int)
    (hin : w.inBounds i j = true) :
    ((((a0.init w).steps l).knowledge i j).prob h = 0 ∨
      (((a0.init w).steps l).knowledge i j).prob h = 1 / 4 ∨
      (((a0.init w).steps l).knowledge i j).prob h = 1 / 3 ∨
      (((a0.init w).steps l).knowledge i j).prob h = 1 / 2 ∨
      (((a0.init w).steps l).knowledge i j).prob h = 1) ∧
    0 ≤ (((a0.init w).steps l).knowledge i j).prob h ∧
    (((a0.init w).steps l).knowledge i j).prob h ≤ 1 := by
  have key := steps_invariant
    (fun s => (s.knowledge i j).prob h = 0 ∨ (s.knowledge i j).prob h = 1 / 4 ∨
      (s.knowledge i j).prob h = 1 / 3 ∨ (s.knowledge i j).prob h = 1 / 2 ∨
      (s.knowledge i j).prob h = 1)
    (fun s hs => updateKnowledge_prob_mem s h i j hs) (fun _ _ hs => hs) l (a0.init w) ?_
  · refine ⟨key, ?_, ?_⟩
    · rcases key with e | e | e | e | e <;> rw [e] <;> norm_num
    · rcases key with e | e | e | e | e <;> rw [e] <;> norm_num
  · left
    rw [init_knowledge]
    by_cases hc : i = 1 ∧ j = 1
    · rw [if_pos hc]
      cases h <;> rfl
    · rw [if_neg hc, if_pos hin]
      cases h <;> rfl

theorem probability_range_witness :
    ((((rawAgent riskWorld false 0).init riskWorld).steps
        [Step.update, Step.move 0 zeroJunk, Step.move 1 zeroJunk]).knowledge 1 2).p_pit = 0 ∨
    ((((rawAgent riskWorld false 0).init riskWorld).steps
        [Step.update, Step.move 0 zeroJunk, Step.move 1 zeroJunk]).knowledge 1 2).p_pit = 1 / 4 ∨
    ((((rawAgent riskWorld false 0).init riskWorld).steps
        [Step.update, Step.move 0 zeroJunk, Step.move 1 zeroJunk]).knowledge 1 2).p_pit = 1 / 3 ∨
    ((((rawAgent riskWorld false 0).init riskWorld).steps
        [Step.update, Step.move 0 zeroJunk, Step.move 1 zeroJunk]).knowledge 1 2).p_pit = 1 / 2 ∨
    ((((rawAgent riskWorld false 0).init riskWorld).steps
        [Step.update, Step.move 0 zeroJunk, Step.move 1 zeroJunk]).knowledge 1 2).p_pit = 1 :=
  (probability_range (rawAgent riskWorld false 0) riskWorld
    [Step.update, Step.move 0 zeroJunk, Step.move 1 zeroJunk] Hazard.pit 1 2 (by decide)).1

/-! ### The two safety records and the position -/

/-- The facts about one in-bounds cell that hold in every state reached from `init`. -/
theorem records_invariant (a0 : Agent) (w : World) (l : List Step) (i j : Int)
    (hin : w.inBounds i j = true) :
    ((a0.init w).steps l).safe i j = (((a0.init w).steps l).knowledge i j).safe ∧
    ((((a0.init w).steps l).knowledge i j).safe = true →
      (((a0.init w).steps l).knowledge i j).unknown = false) ∧
    ((((a0.init w).steps l).knowledge i j).unknown = false →
      ((a0.init w).steps l).visited i j = true ∨ ((a0.init w).steps l).safe i j = true) := by
  refine steps_invariant
    (fun s => s.safe i j = (s.knowledge i j).safe ∧
      ((s.knowledge i j).safe = true → (s.knowledge i j).unknown = false) ∧
      ((s.knowledge i j).unknown = false → s.visited i j = true ∨ s.safe i j = true))
    ?_ (fun _ _ hs => hs) l (a0.init w) ?_
  · rintro s ⟨h1, h2, h3⟩
    obtain ⟨f1, f2, _⟩ := updateKnowledge_flags s i j
    show s.updateKnowledge.safe i j = (s.updateKnowledge.knowledge i j).safe ∧
      ((s.updateKnowledge.knowledge i j).safe = true →
        (s.updateKnowledge.knowledge i j).unknown = false) ∧
      ((s.updateKnowledge.knowledge i j).unknown = false →
        s.updateKnowledge.visited i j = true ∨ s.updateKnowledge.safe i j = true)
    rw [updateKnowledge_safe, updateKnowledge_visited, f1, f2, h1]
    refine ⟨rfl, ?_, ?_⟩
    · intro hs
      cases hX : (s.silent && s.isNbr i j)
      · rw [hX, Bool.or_false] at hs
        rw [h2 hs]
        rfl
      · simp
    · intro hu
      by_cases hc : i = s.x ∧ j = s.y
      · left
        rw [if_pos hc]
      · rw [if_neg hc]
        cases hX : (s.silent && s.isNbr i j)
        · rw [hX] at hu
          have hu2 : (s.knowledge i j).unknown = false := by
            simpa [hc] using hu
          rcases h3 hu2 with hv | hsf
          · exact Or.inl hv
          · right
            rw [← h1, hsf]
            rfl
        · right
          simp
  · show (a0.init w).safe i j = ((a0.init w).knowledge i j).safe ∧
      (((a0.init w).knowledge i j).safe = true → ((a0.init w).knowledge i j).unknown = false) ∧
      (((a0.init w).knowledge i j).unknown = false →
        (a0.init w).visited i j = true ∨ (a0.init w).safe i j = true)
    rw [init_safe, init_knowledge, init_visited]
    by_cases hc : i = 1 ∧ j = 1
    · rw [if_pos hc, if_pos hc]
      exact ⟨rfl, fun _ => rfl, fun _ => Or.inr rfl⟩
    · rw [if_neg hc, if_neg hc, if_pos hin, if_pos hin]
      exact ⟨rfl, fun h => Bool.noConfusion h, fun h => Bool.noConfusion h⟩

/-- C20 (consistency of the two safety records): in every state reached from `init` by
any sequence of `updateKnowledge` and `makeMove` calls, for every in-bounds coordinate
the entry of the auxiliary array `safe` equals `knowledge.safe` (the flag `query` reports
as SAFE), no cell is both safe and unknown, and a cell with `unknown = false` is visited
or safe. -/
theorem safety_records_consistent (a0 : Agent) (w : World) (l : List Step) (i j : Int)
    (hin : w.inBounds i j = true) :
    ((a0.init w).steps l).safe i j = (((a0.init w).steps l).knowledge i j).safe ∧
    ¬ ((((a0.init w).steps l).knowledge i j).safe = true ∧
      (((a0.init w).steps l).knowledge i j).unknown = true) ∧
    ((((a0.init w).steps l).knowledge i j).unknown = false →
      ((a0.init w).steps l).visited i j = true ∨ ((a0.init w).steps l).safe i j = true) := by
  obtain ⟨h1, h2, h3⟩ := records_invariant a0 w l i j hin
  refine ⟨h1, ?_, h3⟩
  rintro ⟨hs, hu⟩
  rw [h2 hs] at hu
  exact Bool.noConfusion hu

theorem safety_records_consistent_witness :
    (((rawAgent riskWorld true 5).init riskWorld).steps
        [Step.update, Step.move 0 zeroJunk, Step.move 1 zeroJunk]).visited 2 2 = true ∨
    (((rawAgent riskWorld true 5).init riskWorld).steps
        [Step.update, Step.move 0 zeroJunk, Step.move 1 zeroJunk]).safe 2 2 = true :=
  (safety_records_consistent (rawAgent riskWorld true 5) riskWorld
    [Step.update, Step.move 0 zeroJunk, Step.move 1 zeroJunk] 2 2 (by decide)).2.2 (by decide!)

/-- A property kept by `updateKnowledge` and by the move to the coordinate that
`chooseNextMove` returns holds after every sequence of calls. -/
theorem steps_invariant_move (P : Agent → Prop) (hu : ∀ s, P s → P s.updateKnowledge)
    (hm : ∀ s r junk, P s → P (s.moveTo (s.chooseNextMove r junk))) (l : List Step)
    (a : Agent) (h0 : P a) : P (a.steps l) := by
  unfold Agent.steps
  induction l generalizing a with
  | nil => exact h0
  | cons st l ih =>
    rw [List.foldl_cons]
    apply ih
    cases st with
    | update => exact hu a h0
    | move r junk =>
      show P (a.makeMove r junk).agent
      rw [makeMove_agent]
      exact hu _ (hm a r junk h0)

/-- What `chooseNextMove` returns is the current coordinate or an in-bounds orthogonal
neighbour of it. -/
theorem chooseNextMove_nbr (a : Agent) (r : Nat) (junk : Nat → Int × Int) :
    (a.classify.safeMoves = [] ∧ a.classify.unknownMoves = [] ∧
      a.classify.visitedMoves = [] ∧ a.chooseNextMove r junk = (a.x, a.y)) ∨
    ∃ d ∈ dirs, a.chooseNextMove r junk = (a.x + d.1, a.y + d.2) ∧
      a.world.inBounds (a.x + d.1) (a.y + d.2) = true := by
  rcases chooseNextMove_cases a r junk with h | ⟨_, h⟩ | ⟨_, _, h⟩ | h
  · obtain ⟨d, hd, hP, he⟩ := (mem_safeMoves a _).1 h
    simp only [Agent.isSafeMove, Bool.and_eq_true] at hP
    exact Or.inr ⟨d, hd, he, hP.1⟩
  · obtain ⟨d, hd, hP, he⟩ := (mem_unknownMoves a _).1 h
    simp only [Agent.isUnknownMove, Bool.and_eq_true] at hP
    exact Or.inr ⟨d, hd, he, hP.1⟩
  · obtain ⟨d, hd, hP, he⟩ := (mem_visitedMoves a _).1 h
    simp only [Agent.isVisitedMove, Bool.and_eq_true] at hP
    exact Or.inr ⟨d, hd, he, hP.1⟩
  · exact Or.inl h

theorem position_inBounds (a0 : Agent) (w : World) (l : List Step) :
    ((a0.init w).steps l).world = w ∧
    w.inBounds ((a0.init w).steps l).x ((a0.init w).steps l).y = true := by
  refine steps_invariant_move (fun s => s.world = w ∧ w.inBounds s.x s.y = true)
    ?_ ?_ l (a0.init w) ?_
  · rintro s ⟨hw, hb⟩
    obtain ⟨fw, fx, fy⟩ := updateKnowledge_frame s
    exact ⟨fw.trans hw, by rw [fx, fy]; exact hb⟩
  · rintro s r junk ⟨hw, hb⟩
    refine ⟨hw, ?_⟩
    rcases chooseNextMove_nbr s r junk with ⟨_, _, _, h⟩ | ⟨d, _, he, hin⟩
    · show w.inBounds (s.chooseNextMove r junk).1 (s.chooseNextMove r junk).2 = true
      rw [h]
      exact hb
    · show w.inBounds (s.chooseNextMove r junk).1 (s.chooseNextMove r junk).2 = true
      rw [he]
      exact hin
  · obtain ⟨iw, ix, iy⟩ := init_frame a0 w
    exact ⟨iw, by rw [ix, iy]; rfl⟩

/-- Every in-bounds coordinate of the 4x4 grid has an in-bounds orthogonal neighbour. -/
theorem exists_inBounds_dir (w : World) (x y : Int) (h : w.inBounds x y = true) :
    ∃ d ∈ dirs, w.inBounds (x + d.1) (y + d.2) = true := by
  simp only [World.inBounds, SIZE, Bool.and_eq_true, decide_eq_true_eq, ge_iff_le] at h
  by_cases hx : x ≤ 3
  · refine ⟨(1, 0), by decide, ?_⟩
    simp only [World.inBounds, SIZE, Bool.and_eq_true, decide_eq_true_eq, ge_iff_le]
    omega
  · refine ⟨(-1, 0), by decide, ?_⟩
    simp only [World.inBounds, SIZE, Bool.and_eq_true, decide_eq_true_eq, ge_iff_le]
    omega

/-- In every state reached from `init` by any sequence of `updateKnowledge` and `makeMove`
calls the agent is in bounds, and the value computed by `chooseNextMove` (the result of
the call whenever the reads of its scan stay inside the array) is in bounds, an
orthogonal neighbour of the current coordinate and different from it; the console text
of `makeMove` then does not hold the stuck message. -/
theorem chooseNextMove_value_on_grid (a0 : Agent) (w : World) (l : List Step) (r : Nat)
    (junk : Nat → Int × Int) :
    w.inBounds ((a0.init w).steps l).x ((a0.init w).steps l).y = true ∧
    w.inBounds (((a0.init w).steps l).chooseNextMove r junk).1
      (((a0.init w).steps l).chooseNextMove r junk).2 = true ∧
    orthogonal (((a0.init w).steps l).x, ((a0.init w).steps l).y)
      (((a0.init w).steps l).chooseNextMove r junk) ∧
    ((a0.init w).steps l).chooseNextMove r junk ≠
      (((a0.init w).steps l).x, ((a0.init w).steps l).y) ∧
    "No safe or unknown moves left.\n" ∉ (((a0.init w).steps l).makeMove r junk).out := by
  obtain ⟨hw, hpos⟩ := position_inBounds a0 w l
  generalize hs : (a0.init w).steps l = s at hw hpos ⊢
  have hrec : ∀ i j, w.inBounds i j = true →
      s.safe i j = (s.knowledge i j).safe ∧
      ((s.knowledge i j).unknown = false → s.visited i j = true ∨ s.safe i j = true) := by
    intro i j hin
    obtain ⟨h1, _, h3⟩ := records_invariant a0 w l i j hin
    rw [hs] at h1 h3
    exact ⟨h1, h3⟩
  have hnb : ∃ d ∈ dirs, s.chooseNextMove r junk = (s.x + d.1, s.y + d.2) ∧
      s.world.inBounds (s.x + d.1) (s.y + d.2) = true := by
    rcases chooseNextMove_nbr s r junk with ⟨e1, e2, e3, _⟩ | h
    · exfalso
      obtain ⟨d, hd, hin⟩ := exists_inBounds_dir w s.x s.y hpos
      obtain ⟨_, h3⟩ := hrec _ _ hin
      have n1 : s.isSafeMove d = false := by
        cases hq : s.isSafeMove d
        · rfl
        · have := (mem_safeMoves s _).2 ⟨d, hd, hq, rfl⟩
          rw [e1] at this
          exact absurd this (List.not_mem_nil _)
      have n2 : s.isUnknownMove d = false := by
        cases hq : s.isUnknownMove d
        · rfl
        · have := (mem_unknownMoves s _).2 ⟨d, hd, hq, rfl⟩
          rw [e2] at this
          exact absurd this (List.not_mem_nil _)
      have n3 : s.isVisitedMove d = false := by
        cases hq : s.isVisitedMove d
        · rfl
        · have := (mem_visitedMoves s _).2 ⟨d, hd, hq, rfl⟩
          rw [e3] at this
          exact absurd this (List.not_mem_nil _)
      rw [← hw] at hin
      simp only [Agent.isSafeMove, Agent.isUnknownMove, Agent.isVisitedMove, hin,
        Bool.true_and] at n1 n2 n3
      revert h3 n1 n2 n3
      cases s.safe (s.x + d.1) (s.y + d.2) <;> cases s.visited (s.x + d.1) (s.y + d.2) <;>
        cases (s.knowledge (s.x + d.1) (s.y + d.2)).unknown <;> simp
    · exact h
  obtain ⟨d, hd, he, hin⟩ := hnb
  have hne : s.chooseNextMove r junk ≠ (s.x, s.y) := by
    rw [he]
    exact dirs_ne d hd s.x s.y
  refine ⟨hpos, ?_, ?_, hne, ?_⟩
  · rw [he, ← hw]
    exact hin
  · rw [he]
    exact (orthogonal_iff s.x s.y _).2 ⟨d, hd, rfl⟩
  · rw [makeMove_out, if_neg hne]
    simp only [List.nil_append, List.mem_append, List.mem_singleton, mem_ite_singleton]
    rintro ((((h | h) | h) | h))
    · exact movedMsg_ne _ _ _ (by decide) h.symm
    · exact absurd h.2 (by decide)
    · exact absurd h.2 (by decide)
    · exact absurd h.2 (by decide)

/-! ### Soundness of the safe array -/

/-- An in-bounds cell other than the start that is in the safe array holds neither a pit
nor the wumpus, in every state reached from `init`. -/
theorem safe_sound (a0 : Agent) (w : World) (l : List Step) (i j : Int)
    (hin : w.inBounds i j = true) (hne : ¬ (i = 1 ∧ j = 1))
    (hs : ((a0.init w).steps l).safe i j = true) :
    w.pitAt i j = false ∧ ¬ (i, j) = (w.wumpusX, w.wumpusY) := by
  have key := steps_invariant
    (fun s => s.world = w ∧
      (s.safe i j = true → w.pitAt i j = false ∧ ¬ (i, j) = (w.wumpusX, w.wumpusY)))
    ?_ (fun _ _ hs => hs) l (a0.init w) ?_
  · exact key.2 hs
  · rintro s ⟨hw, hI⟩
    refine ⟨(updateKnowledge_frame s).1.trans hw, ?_⟩
    intro h
    rw [updateKnowledge_safe, Bool.or_eq_true, Bool.and_eq_true] at h
    rcases h with h | ⟨hsil, hnb⟩
    · exact hI h
    · obtain ⟨d, hd, hb, hi, hj⟩ := (isNbr_iff s i j).1 hnb
      have horth : orthogonal (s.x, s.y) (i, j) :=
        (orthogonal_iff s.x s.y (i, j)).2 ⟨d, hd, by rw [hi, hj]⟩
      unfold Agent.silent at hsil
      rw [Bool.and_eq_true, Bool.not_eq_true', Bool.not_eq_true', hw] at hsil
      obtain ⟨p1, p2, _⟩ := percepts_iff w s.x s.y
      constructor
      · cases hp : w.pitAt i j
        · rfl
        · exfalso
          obtain ⟨k, hk, he⟩ := (pitAt_iff w i j).1 hp
          have : (w.percepts s.x s.y).breeze = true := p1.2 ⟨(i, j), horth, hin, k, hk, he⟩
          rw [hsil.1] at this
          exact Bool.noConfusion this
      · intro he
        have : (w.percepts s.x s.y).stench = true := p2.2 ⟨(i, j), horth, hin, he⟩
        rw [hsil.2] at this
        exact Bool.noConfusion this
  · refine ⟨(init_frame a0 w).1, ?_⟩
    intro h
    rw [init_safe, if_neg hne, if_pos hin] at h
    exact Bool.noConfusion h

/-- After the initial `updateKnowledge` the start stays visited. -/
theorem start_visited (a0 : Agent) (w : World) (l : List Step) :
    ((start a0 w).steps l).visited 1 1 = true := by
  refine steps_invariant (fun s => s.visited 1 1 = true) ?_ (fun _ _ hs => hs) l (start a0 w) ?_
  · intro s hs
    show s.updateKnowledge.visited 1 1 = true
    rw [updateKnowledge_visited]
    split
    · rfl
    · exact hs
  · show (a0.init w).updateKnowledge.visited 1 1 = true
    obtain ⟨_, ix, iy⟩ := init_frame a0 w
    rw [updateKnowledge_visited, ix, iy, if_pos ⟨rfl, rfl⟩]

theorem start_steps (a0 : Agent) (w : World) (l : List Step) :
    (start a0 w).steps l = (a0.init w).steps (Step.update :: l) := rfl

/-- A move taken from the safe list to a coordinate other than the start writes neither
the pit message nor the wumpus message. -/
theorem safe_move_survives (a0 : Agent) (w : World) (l : List Step) (r : Nat)
    (junk : Nat → Int × Int)
    (hmem : ((a0.init w).steps l).chooseNextMove r junk ∈
      ((a0.init w).steps l).classify.safeMoves)
    (hne : ((a0.init w).steps l).chooseNextMove r junk ≠ (1, 1)) :
    "Fell into a pit!\n" ∉ (((a0.init w).steps l).makeMove r junk).out ∧
    "Eaten by the Wumpus!\n" ∉ (((a0.init w).steps l).makeMove r junk).out := by
  have hw : ((a0.init w).steps l).world = w := (steps_world _ l).trans (init_frame a0 w).1
  obtain ⟨d, hd, hP, he⟩ := (mem_safeMoves _ _).1 hmem
  simp only [Agent.isSafeMove, Bool.and_eq_true] at hP
  have hin : w.inBounds (((a0.init w).steps l).chooseNextMove r junk).1
      (((a0.init w).steps l).chooseNextMove r junk).2 = true := by
    rw [he]
    exact hP.1
  have hsafe : ((a0.init w).steps l).safe (((a0.init w).steps l).chooseNextMove r junk).1
      (((a0.init w).steps l).chooseNextMove r junk).2 = true := by
    rw [he]
    exact hP.2.1
  have hne2 : ¬ ((((a0.init w).steps l).chooseNextMove r junk).1 = 1 ∧
      (((a0.init w).steps l).chooseNextMove r junk).2 = 1) :=
    fun h => hne (Prod.ext h.1 h.2)
  obtain ⟨np, nw⟩ := safe_sound a0 w l _ _ hin hne2 hsafe
  rw [makeMove_out, hw]
  simp only [List.mem_append, List.mem_singleton, mem_ite_singleton]
  constructor
  · rintro ((((h | h) | h) | h) | h)
    · exact absurd h.2 (by decide)
    · exact movedMsg_ne _ _ _ (by decide) h.symm
    · rw [np] at h
      exact Bool.noConfusion h.1.2
    · exact absurd h.2 (by decide)
    · exact absurd h.2 (by decide)
  · rintro ((((h | h) | h) | h) | h)
    · exact absurd h.2 (by decide)
    · exact movedMsg_ne _ _ _ (by decide) h.symm
    · exact absurd h.2 (by decide)
    · exact nw h.1
    · exact absurd h.2 (by decide)

/-- Soundness of the safe array: in every state reached from `init` by any sequence of
`updateKnowledge` and `makeMove` calls, an in-bounds coordinate other than the start
(1,1) whose safe-array entry is true is none of the first `pitCount` pits and not the
wumpus coordinate; a move whose coordinate is taken from the safe list and is not the
start writes neither the pit nor the wumpus message; and in the states reached after the
initial `updateKnowledge` of `main` the start is visited, so there no coordinate taken
from the safe list is the start. -/
theorem safe_set_sound (a0 : Agent) (w : World) (l : List Step) (r : Nat)
    (junk : Nat → Int × Int) (i j : Int) :
    (w.inBounds i j = true → ¬ (i = 1 ∧ j = 1) → ((a0.init w).steps l).safe i j = true →
      (¬ ∃ k, k < w.pitCount ∧ (i, j) = (w.pitX k, w.pitY k)) ∧
      ¬ (i, j) = (w.wumpusX, w.wumpusY)) ∧
    (((a0.init w).steps l).chooseNextMove r junk ∈ ((a0.init w).steps l).classify.safeMoves →
      ((a0.init w).steps l).chooseNextMove r junk ≠ (1, 1) →
      "Fell into a pit!\n" ∉ (((a0.init w).steps l).makeMove r junk).out ∧
      "Eaten by the Wumpus!\n" ∉ (((a0.init w).steps l).makeMove r junk).out) ∧
    (((start a0 w).steps l).chooseNextMove r junk ∈ ((start a0 w).steps l).classify.safeMoves →
      "Fell into a pit!\n" ∉ (((start a0 w).steps l).makeMove r junk).out ∧
      "Eaten by the Wumpus!\n" ∉ (((start a0 w).steps l).makeMove r junk).out) := by
  refine ⟨?_, ?_, ?_⟩
  · intro hin hne hs
    obtain ⟨np, nw⟩ := safe_sound a0 w l i j hin hne hs
    refine ⟨?_, nw⟩
    intro hp
    rw [← pitAt_iff, np] at hp
    exact Bool.noConfusion hp
  · exact safe_move_survives a0 w l r junk
  · intro hmem
    have hv := start_visited a0 w l
    rw [start_steps] at hmem hv ⊢
    apply safe_move_survives a0 w (Step.update :: l) r junk hmem
    intro he
    obtain ⟨d, _, hP, he2⟩ := (mem_safeMoves _ _).1 hmem
    simp only [Agent.isSafeMove, Bool.and_eq_true, Bool.not_eq_true'] at hP
    rw [he, Prod.mk.injEq] at he2
    rw [← he2.1, ← he2.2, hv] at hP
    exact Bool.noConfusion hP.2.2

/-! ### The silence rule and the spread blocks of one update -/

theorem spreadOn_sameFrame (cs : List (Int × Int)) (h : Hazard) (a : Agent) :
    a.sameFrame (a.spreadOn cs h) := by
  unfold Agent.spreadOn
  split
  · exact fold_raise_sameFrame _ _ _ _
  · exact sameFrame_refl a

theorem spreadOn_prob (cs : List (Int × Int)) (h h2 : Hazard) (a : Agent) (i j : Int) :
    ((a.spreadOn cs h).knowledge i j).prob h2 =
      if h2 = h ∧ (i, j) ∈ cs
      then max ((a.knowledge i j).prob h2) (1 / (cs.length : ℚ))
      else (a.knowledge i j).prob h2 := by
  unfold Agent.spreadOn
  by_cases hpos : cs.length > 0
  · rw [if_pos hpos, fold_raise_prob]
  · rw [if_neg hpos]
    have hnil : cs = [] := List.length_eq_zero.1 (by omega)
    simp [hnil]

theorem stageOn_prob (b : Bool) (cs : List (Int × Int)) (h h2 : Hazard) (a : Agent)
    (i j : Int) :
    ((if b = true then a.spreadOn cs h else a).knowledge i j).prob h2 =
      if b = true ∧ h2 = h ∧ (i, j) ∈ cs
      then max ((a.knowledge i j).prob h2) (1 / (cs.length : ℚ))
      else (a.knowledge i j).prob h2 := by
  cases b
  · simp
  · simp only [if_true, true_and]
    exact spreadOn_prob cs h h2 a i j

theorem updateKnowledgePreSilence_prob (a : Agent) (h : Hazard) (i j : Int) :
    ((a.updateKnowledgePreSilence).knowledge i j).prob h =
      if (a.world.percepts a.x a.y).flag h = true ∧
        (i, j) ∈ (a.record (a.world.percepts a.x a.y)).candidates
      then max ((a.knowledge i j).prob h)
        (1 / ((a.record (a.world.percepts a.x a.y)).candidates.length : ℚ))
      else (a.knowledge i j).prob h := by
  have hobs : ∀ h2, (a.observe.knowledge i j).prob h2 = (a.knowledge i j).prob h2 := by
    intro h2
    rw [observe_knowledge]
    cases h2 <;> rfl
  unfold Agent.updateKnowledgePreSilence
  dsimp only
  rw [stageOn_prob, stageOn_prob, stageOn_prob, hobs]
  cases h <;> simp [Percept.flag]

theorem observe_not_silent (a : Agent) (hs : a.silent = false) :
    a.observe = a.record (a.world.percepts a.x a.y) := by
  unfold Agent.silent at hs
  unfold Agent.observe
  dsimp only
  rw [hs]
  rfl

theorem observe_silent_candidates (a : Agent) (hs : a.silent = true) :
    a.observe.candidates = [] := by
  rw [List.eq_nil_iff_forall_not_mem]
  intro c hc
  obtain ⟨d, hd, _, hb, _, hsafe⟩ := (mem_candidates a.observe c).1 hc
  obtain ⟨ow, ox, oy⟩ := observe_frame a
  rw [ow, ox, oy] at hb
  rw [ox, oy, observe_safe, hs, isNbr_of_dir a d hd hb] at hsafe
  simp at hsafe

/-- C17, counterexample: in `glowWorld` the start perceives a glow and neither breeze nor
stench.  The silence rule puts both neighbours into the safe array before the glow block
collects its candidates, so `p_paradise` of (1,2) stays below the value it gets when the
candidates are taken from the safe array as it was before the silence rule. -/
theorem silence_changes_glow_spread :
    ((rawAgent glowWorld false 0).init glowWorld).silent = true ∧
    (glowWorld.percepts 1 1).glow = true ∧
    ((((rawAgent glowWorld false 0).init glowWorld).updateKnowledge).knowledge 1 2).p_paradise <
    ((((rawAgent glowWorld false 0).init glowWorld).updateKnowledgePreSilence).knowledge
      1 2).p_paradise := by
  refine ⟨?_, ?_, ?_⟩ <;> decide!

/-- C17, amended: `p_pit` and `p_wumpus` of every cell after `updateKnowledge` are what
they would be with the candidates taken from the safe array as it was before the silence
rule, and so is `p_paradise` when a breeze or a stench is perceived (the silence rule
does not run).  When neither is perceived the silence rule has made every in-bounds
neighbour safe, the glow block finds no candidate and `updateKnowledge` leaves
`p_paradise` of every cell unchanged. -/
theorem silence_and_spread (a : Agent) (i j : Int) :
    ((a.updateKnowledge).knowledge i j).p_pit =
      ((a.updateKnowledgePreSilence).knowledge i j).p_pit ∧
    ((a.updateKnowledge).knowledge i j).p_wumpus =
      ((a.updateKnowledgePreSilence).knowledge i j).p_wumpus ∧
    (a.silent = false →
      ((a.updateKnowledge).knowledge i j).p_paradise =
        ((a.updateKnowledgePreSilence).knowledge i j).p_paradise) ∧
    (a.silent = true →
      ((a.updateKnowledge).knowledge i j).p_paradise = (a.knowledge i j).p_paradise) := by
  have hall : a.silent = false → ∀ h, ((a.updateKnowledge).knowledge i j).prob h =
      ((a.updateKnowledgePreSilence).knowledge i j).prob h := by
    intro hs h
    rw [updateKnowledge_prob, updateKnowledgePreSilence_prob, observe_not_silent a hs]
  have hsil : a.silent = true → ∀ h, h ≠ Hazard.paradise →
      (a.world.percepts a.x a.y).flag h = false := by
    intro hs h hne
    unfold Agent.silent at hs
    rw [Bool.and_eq_true, Bool.not_eq_true', Bool.not_eq_true'] at hs
    cases h
    · exact hs.1
    · exact hs.2
    · exact absurd rfl hne
  have hpw : ∀ h, h ≠ Hazard.paradise → ((a.updateKnowledge).knowledge i j).prob h =
      ((a.updateKnowledgePreSilence).knowledge i j).prob h := by
    intro h hne
    cases hs : a.silent
    · exact hall hs h
    · rw [updateKnowledge_prob, updateKnowledgePreSilence_prob, hsil hs h hne]
      simp
  refine ⟨hpw Hazard.pit (by decide), hpw Hazard.wumpus (by decide),
    fun hs => hall hs Hazard.paradise, fun hs => ?_⟩
  have h := updateKnowledge_prob a Hazard.paradise i j
  rw [observe_silent_candidates a hs] at h
  simpa using h

theorem silence_and_spread_witness :
    ((((rawAgent nearWorld false 0).init nearWorld).updateKnowledge).knowledge 1 2).p_paradise =
      ((((rawAgent nearWorld false 0).init nearWorld).updateKnowledgePreSilence).knowledge
        1 2).p_paradise ∧
    ((((rawAgent glowWorld false 0).init glowWorld).updateKnowledge).knowledge 1 2).p_paradise =
      ((((rawAgent glowWorld false 0).init glowWorld).knowledge 1 2).p_paradise) :=
  ⟨(silence_and_spread ((rawAgent nearWorld false 0).init nearWorld) 1 2).2.2.1 (by decide),
    (silence_and_spread ((rawAgent glowWorld false 0).init glowWorld) 1 2).2.2.2 (by decide)⟩

/-! ### The checked calls -/

theorem fold_scan_none (a : Agent) (m : Moves) (junk : Nat → Int × Int) (l : List Nat) :
    l.foldl (fun acc i => acc.bind (fun dir =>
      if inArray (readArr m.safeMoves junk i) && inArray (readArr m.safeMoves junk dir) then
        some (if a.risk (readArr m.safeMoves junk i) < a.risk (readArr m.safeMoves junk dir)
          then i else dir)
      else none)) (none : Option Nat) = none := by
  induction l with
  | nil => rfl
  | cons i l ih =>
    rw [List.foldl_cons]
    exact ih

theorem fold_scan_some (a : Agent) (m : Moves) (junk : Nat → Int × Int) (l : List Nat)
    (dir d : Nat)
    (h : l.foldl (fun acc i => acc.bind (fun dir =>
      if inArray (readArr m.safeMoves junk i) && inArray (readArr m.safeMoves junk dir) then
        some (if a.risk (readArr m.safeMoves junk i) < a.risk (readArr m.safeMoves junk dir)
          then i else dir)
      else none)) (some dir) = some d) :
    l.foldl (fun dir i =>
      if a.risk (readArr m.safeMoves junk i) < a.risk (readArr m.safeMoves junk dir) then i
      else dir) dir = d := by
  induction l generalizing dir with
  | nil =>
    simp only [List.foldl_nil, Option.some.injEq] at h
    exact h
  | cons i l ih =>
    rw [List.foldl_cons] at h ⊢
    rw [Option.some_bind] at h
    by_cases hc : (inArray (readArr m.safeMoves junk i) &&
        inArray (readArr m.safeMoves junk dir)) = true
    · rw [if_pos hc] at h
      exact ih _ h
    · rw [if_neg hc, fold_scan_none] at h
      exact Option.noConfusion h

theorem fold_scan_inArray (a : Agent) (m : Moves) (junk : Nat → Int × Int)
    (hj : ∀ i, inArray (readArr m.safeMoves junk i) = true) (l : List Nat) (dir : Nat) :
    l.foldl (fun acc i => acc.bind (fun dir =>
      if inArray (readArr m.safeMoves junk i) && inArray (readArr m.safeMoves junk dir) then
        some (if a.risk (readArr m.safeMoves junk i) < a.risk (readArr m.safeMoves junk dir)
          then i else dir)
      else none)) (some dir) =
    some (l.foldl (fun dir i =>
      if a.risk (readArr m.safeMoves junk i) < a.risk (readArr m.safeMoves junk dir) then i
      else dir) dir) := by
  induction l generalizing dir with
  | nil => rfl
  | cons i l ih =>
    rw [List.foldl_cons, List.foldl_cons, Option.some_bind, hj i, hj dir]
    exact ih _

/-- When the checked scan yields an index it is the one `Agent.scan` computes. -/
theorem scanChecked_some (a : Agent) (m : Moves) (junk : Nat → Int × Int) (dir d : Nat)
    (h : a.scanChecked m junk dir = some d) : a.scan m junk dir = d :=
  fold_scan_some a m junk _ dir d h

/-- When a checked call of `chooseNextMove` returns, it returns what `chooseNextMove`
computes. -/
theorem chooseNextMoveChecked_some (a : Agent) (r : Nat) (junk : Nat → Int × Int)
    (n : Int × Int) (h : a.chooseNextMoveChecked r junk = some n) :
    a.chooseNextMove r junk = n := by
  unfold Agent.chooseNextMoveChecked at h
  unfold Agent.chooseNextMove
  dsimp only at h ⊢
  by_cases h1 : a.classify.safeMoves.length > 0
  · rw [if_pos h1] at h ⊢
    exact Option.some.inj h
  · rw [if_neg h1] at h ⊢
    by_cases h2 : a.classify.unknownMoves.length > 0
    · rw [if_pos h2] at h ⊢
      rw [Option.map_eq_some'] at h
      obtain ⟨d, hd, he⟩ := h
      rw [scanChecked_some a _ junk _ d hd]
      exact he
    · rw [if_neg h2] at h ⊢
      by_cases h3 : a.classify.visitedMoves.length > 0
      · rw [if_pos h3] at h ⊢
        exact Option.some.inj h
      · rw [if_neg h3] at h ⊢
        exact Option.some.inj h

/-- When every stale entry of `safeMoves` indexes inside the array, the checked call of
`chooseNextMove` returns. -/
theorem chooseNextMoveChecked_inArray (a : Agent) (r : Nat) (junk : Nat → Int × Int)
    (hj : ∀ i, inArray (junk i) = true) :
    a.chooseNextMoveChecked r junk = some (a.chooseNextMove r junk) := by
  unfold Agent.chooseNextMoveChecked Agent.chooseNextMove
  dsimp only
  by_cases h1 : a.classify.safeMoves.length > 0
  · rw [if_pos h1, if_pos h1]
  · rw [if_neg h1, if_neg h1]
    by_cases h2 : a.classify.unknownMoves.length > 0
    · rw [if_pos h2, if_pos h2]
      have e1 : a.classify.safeMoves = [] := List.length_eq_zero.1 (by omega)
      have hr : ∀ i, inArray (readArr a.classify.safeMoves junk i) = true := by
        intro i
        rw [e1]
        exact hj i
      unfold Agent.scanChecked Agent.scan
      rw [fold_scan_inArray a _ junk hr]
      rfl
    · rw [if_neg h2, if_neg h2]
      by_cases h3 : a.classify.visitedMoves.length > 0
      · rw [if_pos h3, if_pos h3]
      · rw [if_neg h3, if_neg h3]

/-- When a checked call of `makeMove` returns, it yields what `makeMove` computes. -/
theorem makeMoveChecked_some (a : Agent) (r : Nat) (junk : Nat → Int × Int) (m : MoveResult)
    (h : a.makeMoveChecked r junk = some m) : m = a.makeMove r junk := by
  unfold Agent.makeMoveChecked at h
  rw [Option.map_eq_some'] at h
  obtain ⟨_, _, he⟩ := h
  exact he.symm

/-- When every stale entry of `safeMoves` indexes inside the array, the checked call of
`makeMove` returns. -/
theorem makeMoveChecked_inArray (a : Agent) (r : Nat) (junk : Nat → Int × Int)
    (hj : ∀ i, inArray (junk i) = true) :
    a.makeMoveChecked r junk = some (a.makeMove r junk) := by
  unfold Agent.makeMoveChecked
  rw [chooseNextMoveChecked_inArray a r junk hj]
  rfl

/-! ### Revised statements -/

/-- The label printed by `query` for a cell with `safe = false` and `unknown = false`. -/
theorem query_unsafe (a : Agent) (qx qy : Int) (h1 : (a.knowledge qx qy).safe = false)
    (h2 : (a.knowledge qx qy).unknown = false) :
    ∃ rest, a.query qx qy =
      "Cell (" ++ toString qx ++ "," ++ toString qy ++ "): " ++ "UNSAFE\n" ++ rest := by
  unfold Agent.query
  dsimp only
  rw [h1, h2]
  refine ⟨"  Breeze: " ++ (if (a.knowledge qx qy).breeze = true then "Yes\n" else "No\n") ++
    "  Stench: " ++ (if (a.knowledge qx qy).stench = true then "Yes\n" else "No\n") ++
    "    glow: " ++ (if (a.knowledge qx qy).glow = true then "Yes\n" else "No\n"), ?_⟩
  simp only [String.append_assoc, Bool.false_eq_true, if_false]

/-- After `updateKnowledge` the current cell has `unknown = false` and the `safe` flag it
had before. -/
theorem updateKnowledge_current (s : Agent) :
    (s.updateKnowledge.knowledge s.x s.y).unknown = false ∧
    (s.updateKnowledge.knowledge s.x s.y).safe = (s.knowledge s.x s.y).safe := by
  constructor
  · rw [(updateKnowledge_flags _ _ _).2.1]
    simp
  · rw [(updateKnowledge_flags _ _ _).1, not_isNbr_self]
    simp

/-- C6, amended: in every state reached from `init` by any sequence of `updateKnowledge`
and `makeMove` calls, an in-bounds cell with `safe = false` and `unknown = false` (the
label UNSAFE) has been visited, so no unvisited cell is ever UNSAFE.  Visiting does
change the classification: in every state `s`, `updateKnowledge` clears `unknown` at the
current cell and leaves its `safe` flag as it was; so when `makeMove` moves onto a cell
whose `safe` flag is false, that cell has `safe = false` and `unknown = false`
afterwards and `query` labels it UNSAFE. -/
theorem unsafe_only_when_visited (a0 : Agent) (w : World) (l : List Step) (i j : Int)
    (s : Agent) (r : Nat) (junk : Nat → Int × Int) :
    (w.inBounds i j = true → (((a0.init w).steps l).knowledge i j).safe = false →
      (((a0.init w).steps l).knowledge i j).unknown = false →
      ((a0.init w).steps l).visited i j = true) ∧
    (s.updateKnowledge.knowledge s.x s.y).unknown = false ∧
    (s.updateKnowledge.knowledge s.x s.y).safe = (s.knowledge s.x s.y).safe ∧
    ((s.knowledge (s.chooseNextMove r junk).1 (s.chooseNextMove r junk).2).safe = false →
      ((s.makeMove r junk).agent.knowledge (s.chooseNextMove r junk).1
        (s.chooseNextMove r junk).2).safe = false ∧
      ((s.makeMove r junk).agent.knowledge (s.chooseNextMove r junk).1
        (s.chooseNextMove r junk).2).unknown = false ∧
      ∃ rest, (s.makeMove r junk).agent.query (s.chooseNextMove r junk).1
          (s.chooseNextMove r junk).2 =
        "Cell (" ++ toString (s.chooseNextMove r junk).1 ++ "," ++
          toString (s.chooseNextMove r junk).2 ++ "): " ++ "UNSAFE\n" ++ rest) := by
  refine ⟨?_, (updateKnowledge_current s).1, (updateKnowledge_current s).2, ?_⟩
  · intro hin h1 h2
    have key := steps_invariant
      (fun s => ∀ i j, w.inBounds i j = true → (s.knowledge i j).safe = false →
        (s.knowledge i j).unknown = false → s.visited i j = true)
      ?_ ?_ l (a0.init w) ?_
    · exact key i j hin h1 h2
    · intro s hI i j hin h1 h2
      rw [(updateKnowledge_flags s i j).1] at h1
      rw [(updateKnowledge_flags s i j).2.1] at h2
      rw [updateKnowledge_visited]
      by_cases hc : i = s.x ∧ j = s.y
      · rw [if_pos hc]
      · rw [if_neg hc]
        rw [Bool.or_eq_false_iff] at h1
        apply hI i j hin h1.1
        rw [h1.2] at h2
        simpa [hc] using h2
    · intro s n hI
      exact hI
    · intro i j hin h1 h2
      rw [init_knowledge] at h1 h2
      by_cases hc : i = 1 ∧ j = 1
      · rw [if_pos hc] at h1
        exact Bool.noConfusion h1
      · rw [if_neg hc, if_pos hin] at h2
        exact Bool.noConfusion h2
  · intro hsafe
    have hcur := updateKnowledge_current (s.moveTo (s.chooseNextMove r junk))
    have e1 : ((s.makeMove r junk).agent.knowledge (s.chooseNextMove r junk).1
        (s.chooseNextMove r junk).2).safe = false := by
      rw [makeMove_agent]
      exact hcur.2.trans hsafe
    have e2 : ((s.makeMove r junk).agent.knowledge (s.chooseNextMove r junk).1
        (s.chooseNextMove r junk).2).unknown = false := by
      rw [makeMove_agent]
      exact hcur.1
    exact ⟨e1, e2, query_unsafe _ _ _ e1 e2⟩

theorem unsafe_only_when_visited_witness :
    (((rawAgent layoutWorld false 0).init layoutWorld).steps
      [Step.update, Step.move 0 zeroJunk, Step.move 1 zeroJunk]).visited 2 2 = true ∧
    (((((rawAgent layoutWorld false 0).init layoutWorld).steps
      [Step.update, Step.move 0 zeroJunk]).makeMove 1 zeroJunk).agent.knowledge
      ((((rawAgent layoutWorld false 0).init layoutWorld).steps
        [Step.update, Step.move 0 zeroJunk]).chooseNextMove 1 zeroJunk).1
      ((((rawAgent layoutWorld false 0).init layoutWorld).steps
        [Step.update, Step.move 0 zeroJunk]).chooseNextMove 1 zeroJunk).2).unknown = false :=
  let h := unsafe_only_when_visited (rawAgent layoutWorld false 0) layoutWorld
    [Step.update, Step.move 0 zeroJunk, Step.move 1 zeroJunk] 2 2
    (((rawAgent layoutWorld false 0).init layoutWorld).steps [Step.update, Step.move 0 zeroJunk])
    1 zeroJunk
  ⟨h.1 (by decide) (by decide!) (by decide!), (h.2.2.2 (by decide!)).2.1⟩

/-- Whenever the checked call of `chooseNextMove` returns in a state reached from `init`,
it returns an in-bounds orthogonal neighbour different from the current coordinate. -/
theorem chooseNextMoveChecked_on_grid (a0 : Agent) (w : World) (l : List Step) (r : Nat)
    (junk : Nat → Int × Int) (n : Int × Int)
    (h : ((a0.init w).steps l).chooseNextMoveChecked r junk = some n) :
    w.inBounds n.1 n.2 = true ∧
    orthogonal (((a0.init w).steps l).x, ((a0.init w).steps l).y) n ∧
    n ≠ (((a0.init w).steps l).x, ((a0.init w).steps l).y) := by
  have e := chooseNextMoveChecked_some _ r junk n h
  obtain ⟨_, h2, h3, h4, _⟩ := chooseNextMove_value_on_grid a0 w l r junk
  rw [e] at h2 h3 h4
  exact ⟨h2, h3, h4⟩

/-- C10: in `pitsWorld` both in-bounds neighbours of the start are pits.  After `init` and
the first `updateKnowledge` the safe list is empty and the unknown list is (2,1), (1,2),
so the first `makeMove` runs the scan of the unknown branch.  With stale `safeMoves`
entries that index outside the array the scan reads `knowledge` out of range and the
call has no defined result, although that move is specified to go onto a pit and return
true; with entries inside the array it does return. -/
theorem first_move_reads_outside_array :
    (start (rawAgent pitsWorld false 0) pitsWorld).classify.safeMoves = [] ∧
    (start (rawAgent pitsWorld false 0) pitsWorld).classify.unknownMoves = [(2, 1), (1, 2)] ∧
    inArray (farJunk 0) = false ∧
    (start (rawAgent pitsWorld false 0) pitsWorld).chooseNextMoveChecked 0 farJunk = none ∧
    ((start (rawAgent pitsWorld false 0) pitsWorld).makeMoveChecked 0 farJunk).isSome = false ∧
    ((start (rawAgent pitsWorld false 0) pitsWorld).makeMoveChecked 0 zeroJunk).isSome = true := by
  refine ⟨?_, ?_, ?_, ?_, ?_, ?_⟩ <;> decide!

/-- C18: in the 4x4 layout of the specification, after `init`, the first `updateKnowledge`
and the move to (2,1) the agent perceives a breeze; its safe list is empty and its
unknown list is (3,1), (2,2).  With stale `safeMoves` entries that index outside the
array the next `chooseNextMove` reads `knowledge` out of range in its scan and returns
nothing, although it is specified to return an in-bounds neighbour for every random
value. -/
theorem unknown_branch_reads_outside_array :
    (start (rawAgent layoutWorld false 0) layoutWorld).chooseNextMoveChecked 0 farJunk =
      some (2, 1) ∧
    (((rawAgent layoutWorld false 0).init layoutWorld).steps
      [Step.update, Step.move 0 farJunk]).classify.safeMoves = [] ∧
    (((rawAgent layoutWorld false 0).init layoutWorld).steps
      [Step.update, Step.move 0 farJunk]).classify.unknownMoves = [(3, 1), (2, 2)] ∧
    (((rawAgent layoutWorld false 0).init layoutWorld).steps
      [Step.update, Step.move 0 farJunk]).chooseNextMoveChecked 0 farJunk = none ∧
    ((((rawAgent layoutWorld false 0).init layoutWorld).steps
      [Step.update, Step.move 0 farJunk]).makeMoveChecked 0 farJunk).isSome = false := by
  refine ⟨?_, ?_, ?_, ?_, ?_⟩ <;> decide!

/-- When every in-bounds orthogonal neighbour of the start is a pit and the first checked
`makeMove` after `init` and the first `updateKnowledge` returns, it has moved onto a pit
and returns true. -/
theorem first_move_onto_pit_when_defined (a0 : Agent) (w : World) (r : Nat)
    (junk : Nat → Int × Int) (m : MoveResult)
    (hpits : ∀ c : Int × Int, orthogonal (1, 1) c → w.inBounds c.1 c.2 = true →
      ∃ k, k < w.pitCount ∧ c = (w.pitX k, w.pitY k))
    (h : (start a0 w).makeMoveChecked r junk = some m) :
    m.finish = true ∧ ∃ k, k < w.pitCount ∧ (m.agent.x, m.agent.y) = (w.pitX k, w.pitY k) := by
  rw [makeMoveChecked_some _ r junk m h]
  exact (makeMove_terminal_value a0 r junk).2 a0 w hpits

end Wumpus
